import Mathlib

/-!
# Scene Fold — verification of the scene data model and queue

A shallow embedding of the scene-fold extension's core logic:
the stable-identity UUID index, the scene store, the two reconciliation
passes (deletion, duplication), the summarization retry loop, and the
single-concurrency summarization queue.

Messages are modelled with exactly the fields the embedded code reads or
writes (`extra.scene_fold_uuid`, `extra.scene_fold_scenes`,
`extra.scene_fold_role`, `extra.scene_fold_scene_id`, `is_system`).
JavaScript objects keyed by strings are modelled as association lists in
insertion order, matching `Object.entries` iteration order; JS `Map` is
modelled the same way.  The UUID generator (`uuidv4`) is modelled as a
function `Nat → String` applied to an explicitly threaded counter, one
increment per call.
-/

namespace SceneFold

/-- Scene lifecycle status: `defined | queued | summarizing | completed | error`. -/
inductive SceneStatus where
  | defined
  | queued
  | summarizing
  | completed
  | error
deriving DecidableEq, Repr

/-- The `extra` field of a chat message, restricted to the keys the
scene-fold code reads or writes.  `none` models an absent key. -/
structure MsgExtra where
  scene_fold_uuid : Option String := none
  scene_fold_scenes : Option (List String) := none
  scene_fold_role : Option String := none
  scene_fold_scene_id : Option String := none
deriving DecidableEq, Repr

/-- A chat message.  `extra = none` models a message without an `extra`
object; `is_system` is the host's hidden-from-processing flag. -/
structure Message where
  extra : Option MsgExtra := none
  is_system : Bool := false
deriving DecidableEq, Repr

/-- A scene record, as built by `createScene`. -/
structure Scene where
  id : String
  summaryMessageUUID : Option String := none
  sourceMessageUUIDs : List String := []
  parentSceneId : Option String := none
  status : SceneStatus := .defined
  customPrompt : Option String := none
  folded : Bool := false
  stale : Bool := false
  lastError : Option String := none
  createdAt : Nat := 0
deriving DecidableEq, Repr

/-- `chat_metadata.scene_fold.scenes`: a JS object mapping scene id to
scene record, modelled as an association list in insertion order. -/
abbrev Store := List (String × Scene)

/-- JS property read `scenes[k]`. -/
def storeGet : Store → String → Option Scene
  | [], _ => none
  | (k, s) :: rest, key => if k = key then some s else storeGet rest key

/-- JS property write `scenes[k] = s` (overwrites in place, appends if new). -/
def storeSet : Store → String → Scene → Store
  | [], key, s => [(key, s)]
  | (k, old) :: rest, key, s =>
      if k = key then (k, s) :: rest else (k, old) :: storeSet rest key s

/-- JS `delete scenes[k]`. -/
def storeErase : Store → String → Store
  | [], _ => []
  | (k, s) :: rest, key =>
      if k = key then storeErase rest key else (k, s) :: storeErase rest key

/-- The message's stable identifier: `message?.extra?.scene_fold_uuid`. -/
def msgUUID (m : Message) : Option String :=
  m.extra.bind (·.scene_fold_uuid)

/-- `chat[i]?.extra?.scene_fold_uuid`. -/
def chatUUIDAt (chat : List Message) (i : Nat) : Option String :=
  (chat.get? i).bind msgUUID

/-- `chat[i]?.extra?.scene_fold_scenes || []`  (`getMessageScenes`). -/
def getMessageScenes (chat : List Message) (messageIndex : Nat) : List String :=
  (((chat.get? messageIndex).bind (·.extra)).bind (·.scene_fold_scenes)).getD []

/-- A JS `Map<string, number>`, modelled as an association list. -/
abbrev UUIDMap := List (String × Nat)

/-- `Map.get` (paired with `Map.has` at the one call site). -/
def mapGet : UUIDMap → String → Option Nat
  | [], _ => none
  | (k, v) :: rest, key => if k = key then some v else mapGet rest key

/-- `Map.set`: overwrite the existing binding or append a new one. -/
def mapSet : UUIDMap → String → Nat → UUIDMap
  | [], key, v => [(key, v)]
  | (k, w) :: rest, key, v =>
      if k = key then (k, v) :: rest else (k, w) :: mapSet rest key v

/-- `buildUUIDIndex(chat)`: one forward pass over the chat,
`index.set(uuid, i)` for every message with a (truthy) UUID.  A UUID that
occurs more than once ends up bound to its **last** index. -/
def buildUUIDIndex (chat : List Message) : UUIDMap :=
  (List.range chat.length).foldl
    (fun index i =>
      match chatUUIDAt chat i with
      | some uuid => if uuid = "" then index else mapSet index uuid i
      | none => index)
    []

/-- The walker behind the fallback linear scan: the remaining suffix of
the chat, carrying the index of its head. -/
def linearScanAux (uuid : String) : Nat → List Message → Int
  | _, [] => -1
  | i, m :: rest =>
      if msgUUID m = some uuid then Int.ofNat i else linearScanAux uuid (i + 1) rest

/-- The fallback linear scan of `findMessageIndexByUUID`:
`for (i = 0; i < chat.length; i++) if (chat[i]?.extra?.scene_fold_uuid === uuid) return i; return -1`. -/
def linearScan (chat : List Message) (uuid : String) : Int :=
  linearScanAux uuid 0 chat

/-- `findMessageIndexByUUID(chat, uuid, uuidIndex?)`: try the cache and
validate the hit against the live message, otherwise fall back to the
linear scan; `-1` when not found. -/
def findMessageIndexByUUID (chat : List Message) (uuid : String)
    (uuidIndex : Option UUIDMap) : Int :=
  match uuidIndex with
  | some idxMap =>
    match mapGet idxMap uuid with
    | some idx =>
        if chatUUIDAt chat idx = some uuid then Int.ofNat idx
        else linearScan chat uuid
    | none => linearScan chat uuid
  | none => linearScan chat uuid

/-- `updateScene(chatMetadata, sceneId, updates)`: merge a partial update
into the stored scene; no-op when the id is unknown.  The JS partial
object is modelled as the merge function `f`. -/
def updateScene (store : Store) (sceneId : String) (f : Scene → Scene) : Store :=
  match storeGet store sceneId with
  | none => store
  | some s => storeSet store sceneId (f s)

/-- `ensureMessageUUID(message, uuidv4Fn)`: create `extra` when absent and
mint a stable UUID when absent (or an empty, falsy string).  Returns the
updated message, the UUID, and the generator counter after the call. -/
def ensureMessageUUID (gen : Nat → String) (c : Nat) (m : Message) :
    Message × String × Nat :=
  let e := m.extra.getD {}
  match e.scene_fold_uuid with
  | some u =>
      if u = "" then
        let u1 := gen c
        ({ m with extra := some { e with scene_fold_uuid := some u1 } }, u1, c + 1)
      else ({ m with extra := some e }, u, c)
  | none =>
      let u1 := gen c
      ({ m with extra := some { e with scene_fold_uuid := some u1 } }, u1, c + 1)

/-- One iteration of `createScene`'s member loop: skip a missing entry,
otherwise ensure a UUID, collect it, tag the message with the scene id and
the `source` role. -/
def createSceneStep (sceneId : String) (gen : Nat → String)
    (acc : List Message × List String × Nat) (i : Nat) :
    List Message × List String × Nat :=
  let (chat, uuids, c) := acc
  match chat.get? i with
  | none => (chat, uuids, c)
  | some msg =>
    let (msg1, uuid, c1) := ensureMessageUUID gen c msg
    let e := msg1.extra.getD {}
    let scenesList := (e.scene_fold_scenes).getD []
    let scenesList1 :=
      if sceneId ∈ scenesList then scenesList else scenesList ++ [sceneId]
    let msg2 := { msg1 with
      extra := some { e with
        scene_fold_scenes := some scenesList1,
        scene_fold_role := some "source" } }
    (chat.set i msg2, uuids ++ [uuid], c1)

/-- `createScene(chatMetadata, chat, startIndex, endIndex, uuidv4Fn, customPrompt)`:
mint a scene id, walk the inclusive index range collecting/minting member
UUIDs and tagging members, store the new record, return it.  No bounds or
emptiness validation is performed on the range. -/
def createScene (store : Store) (chat : List Message) (startIndex endIndex : Nat)
    (gen : Nat → String) (c : Nat) (customPrompt : Option String) (now : Nat) :
    Store × List Message × Scene × Nat :=
  let sceneId := gen c
  let res := (List.range' startIndex (endIndex + 1 - startIndex)).foldl
    (createSceneStep sceneId gen) (chat, [], c + 1)
  let scene : Scene := {
    id := sceneId,
    summaryMessageUUID := none,
    sourceMessageUUIDs := res.2.1,
    parentSceneId := none,
    status := .defined,
    -- `customPrompt || null` turns the empty string into null
    customPrompt := match customPrompt with
      | some p => if p = "" then none else some p
      | none => none,
    folded := false,
    stale := false,
    lastError := none,
    createdAt := now }
  (storeSet store sceneId scene, res.1, scene, res.2.2)

/-- `findOverlappingScenes(chatMetadata, chat, startIndex, endIndex)`:
collect (deduplicated, first-seen order) every scene id tagged on a
message of the inclusive range. -/
def findOverlappingScenes (chat : List Message) (startIndex endIndex : Nat) :
    List String :=
  (List.range' startIndex (endIndex + 1 - startIndex)).foldl
    (fun acc i =>
      (getMessageScenes chat i).foldl
        (fun acc1 sceneId => if sceneId ∈ acc1 then acc1 else acc1 ++ [sceneId])
        acc)
    []

/-- Outcome of the `/scene-create` command core. -/
inductive CreateOutcome where
  | created (sceneId : String)
  | rejectedRange
  | rejectedOverlap
deriving DecidableEq, Repr

/-- The range-handling core of `slashSceneCreate`: swap a reversed range,
reject a range past the end of the chat, reject a range overlapping an
existing scene, otherwise create the scene. -/
def slashSceneCreate (store : Store) (chat : List Message) (start0 end0 : Nat)
    (gen : Nat → String) (c : Nat) (customPrompt : Option String) (now : Nat) :
    Store × List Message × CreateOutcome × Nat :=
  let start1 := min start0 end0
  let end1 := max start0 end0
  if chat.length ≤ end1 then (store, chat, .rejectedRange, c)
  else
    let overlaps := findOverlappingScenes chat start1 end1
    if overlaps ≠ [] then (store, chat, .rejectedOverlap, c)
    else
      let res := createScene store chat start1 end1 gen c customPrompt now
      (res.1, res.2.1, .created res.2.2.1.id, res.2.2.2)

/-- The three result lists of `reconcileScenesAfterDeletion`. -/
structure ReconcileResult where
  modifiedScenes : List String := []
  deletedScenes : List String := []
  summaryLost : List String := []
deriving DecidableEq, Repr

/-- `delete chat[idx].extra.scene_fold_scene_id; delete chat[idx].extra.scene_fold_role`
on a summary message of a scene being deleted. -/
def clearSummaryTagsAt (chat : List Message) (idx : Nat) : List Message :=
  match chat.get? idx with
  | none => chat
  | some msg =>
    match msg.extra with
    | none => chat
    | some e =>
        chat.set idx { msg with
          extra := some { e with scene_fold_scene_id := none, scene_fold_role := none } }

/-- `chat[idx].is_system = false`: restore a source message's visibility. -/
def unhideAt (chat : List Message) (idx : Nat) : List Message :=
  match chat.get? idx with
  | none => chat
  | some msg => chat.set idx { msg with is_system := false }

/-- The body of `reconcileScenesAfterDeletion`'s per-scene loop: recompute
the valid sources, delete the scene when none survive (clearing the
summary message's scene tags when it still exists), otherwise handle a
lost summary (reset to `defined`, unfold, un-hide sources) and record the
scene as modified. -/
def reconcileStep (uuidIndex : UUIDMap)
    (acc : Store × List Message × ReconcileResult) (entry : String × Scene) :
    Store × List Message × ReconcileResult :=
  let store := acc.1
  let chat := acc.2.1
  let result := acc.2.2
  let sceneId := entry.1
  let scene := entry.2
  let validSources := scene.sourceMessageUUIDs.filter
    (fun uuid => findMessageIndexByUUID chat uuid (some uuidIndex) ≠ -1)
  let modified : Bool := validSources.length != scene.sourceMessageUUIDs.length
  let scene1 :=
    if modified then { scene with sourceMessageUUIDs := validSources } else scene
  if validSources.length = 0 then
    let chat1 :=
      match scene1.summaryMessageUUID with
      | some su =>
        let summaryIdx := findMessageIndexByUUID chat su (some uuidIndex)
        if summaryIdx ≠ -1 then clearSummaryTagsAt chat summaryIdx.toNat else chat
      | none => chat
    (storeErase store sceneId, chat1,
      { result with deletedScenes := result.deletedScenes ++ [sceneId] })
  else
    match scene1.summaryMessageUUID with
    | some su =>
      let summaryIdx := findMessageIndexByUUID chat su (some uuidIndex)
      if summaryIdx = -1 then
        -- summary lost: reset the scene, un-hide its sources, record it;
        -- `modified` is forced true, so only the deleted-guard remains
        let scene2 := { scene1 with
          summaryMessageUUID := none, status := .defined, folded := false }
        let chat2 := scene2.sourceMessageUUIDs.foldl
          (fun ch uuid =>
            let idx := findMessageIndexByUUID ch uuid (some uuidIndex)
            if idx ≠ -1 then unhideAt ch idx.toNat else ch)
          chat
        let result2 := { result with summaryLost := result.summaryLost ++ [sceneId] }
        let result3 :=
          if sceneId ∉ result2.deletedScenes then
            { result2 with modifiedScenes := result2.modifiedScenes ++ [sceneId] }
          else result2
        (storeSet store sceneId scene2, chat2, result3)
      else
        let result3 :=
          if modified ∧ sceneId ∉ result.deletedScenes then
            { result with modifiedScenes := result.modifiedScenes ++ [sceneId] }
          else result
        (storeSet store sceneId scene1, chat, result3)
    | none =>
      let result3 :=
        if modified ∧ sceneId ∉ result.deletedScenes then
          { result with modifiedScenes := result.modifiedScenes ++ [sceneId] }
        else result
      (storeSet store sceneId scene1, chat, result3)

/-- `reconcileScenesAfterDeletion(chatMetadata, chat)`: build the UUID
index once, then run the per-scene repair over a snapshot of the store's
entries, threading the store, the chat, and the three result lists. -/
def reconcileScenesAfterDeletion (store : Store) (chat : List Message) :
    Store × List Message × ReconcileResult :=
  let uuidIndex := buildUUIDIndex chat
  store.foldl (reconcileStep uuidIndex) (store, chat, {})

/-- Append an index to a UUID's occurrence list (first-seen key order),
mirroring `uuidOccurrences.get(uuid).push(i)`. -/
def occAdd : List (String × List Nat) → String → Nat → List (String × List Nat)
  | [], u, i => [(u, [i])]
  | (k, l) :: rest, u, i =>
      if k = u then (k, l ++ [i]) :: rest else (k, l) :: occAdd rest u i

/-- The `uuidOccurrences` map of `reconcileDuplicatedMessages`: UUID to
the increasing list of chat indices carrying it (falsy UUIDs skipped). -/
def buildOccurrences (chat : List Message) : List (String × List Nat) :=
  (List.range chat.length).foldl
    (fun occ i =>
      match chatUUIDAt chat i with
      | some uuid => if uuid = "" then occ else occAdd occ uuid i
      | none => occ)
    []

/-- JS `Array.prototype.indexOf`: first index of `x`, `-1` when absent. -/
def jsIndexOf (l : List String) (x : String) : Int :=
  match l with
  | [] => -1
  | y :: rest =>
      if y = x then 0
      else
        let r := jsIndexOf rest x
        if r = -1 then -1 else r + 1

/-- JS `l.splice(pos, 0, x)`: insert `x` at position `pos`. -/
def spliceInsert (l : List String) (pos : Nat) (x : String) : List String :=
  l.take pos ++ [x] ++ l.drop pos

/-- One source-list repair: insert the fresh UUID immediately after the
original's position (`splice(origPos + 1, 0, newUUID)`), or append when
the original is not found (`indexOf` returned `-1`). -/
def insertRepair (originalUUID newUUID : String) (l : List String) : List String :=
  let origPos := jsIndexOf l originalUUID
  if origPos ≠ -1 then spliceInsert l (origPos.toNat + 1) newUUID
  else l ++ [newUUID]

/-- The body of `reconcileDuplicatedMessages`'s per-duplicate loop: mint a
fresh UUID for the duplicate, then for every scene id in the duplicate's
membership tags insert the fresh UUID right after the original in that
scene's `sourceMessageUUIDs` (append when the original is not found). -/
def fixDuplicateAt (gen : Nat → String) (originalUUID : String)
    (acc : Store × List Message × Nat × Nat) (dupIdx : Nat) :
    Store × List Message × Nat × Nat :=
  let store := acc.1
  let chat := acc.2.1
  let c := acc.2.2.1
  let fixed := acc.2.2.2
  match chat.get? dupIdx with
  | none => (store, chat, c, fixed)
  | some dupMsg =>
    let newUUID := gen c
    let e := dupMsg.extra.getD {}
    let chat1 := chat.set dupIdx
      { dupMsg with extra := some { e with scene_fold_uuid := some newUUID } }
    let sceneIds := (e.scene_fold_scenes).getD []
    let store1 := sceneIds.foldl
      (fun st sceneId =>
        match storeGet st sceneId with
        | none => st
        | some scene =>
          storeSet st sceneId { scene with
            sourceMessageUUIDs := insertRepair originalUUID newUUID scene.sourceMessageUUIDs })
      store
    (store1, chat1, c + 1, fixed + 1)

/-- `reconcileDuplicatedMessages(chatMetadata, chat, uuidv4Fn)`: find every
UUID carried by more than one message; the earliest occurrence keeps it,
each later occurrence is repaired by `fixDuplicateAt`.  Returns the final
store, chat, and the number of messages fixed. -/
def reconcileDuplicatedMessages (store : Store) (chat : List Message)
    (gen : Nat → String) : Store × List Message × Nat :=
  let occ := buildOccurrences chat
  let res := occ.foldl
    (fun acc entry => (entry.2.drop 1).foldl (fixDuplicateAt gen entry.1) acc)
    (store, chat, 0, 0)
  (res.1, res.2.1, res.2.2.2)

/-- Outcome of one `generateRaw({ prompt })` call: a thrown error (its
message text) or a returned value (`none` models `null`/`undefined`). -/
inductive GenOutcome where
  | thrown (msg : String)
  | returned (result : Option String)

/-- JS `String.prototype.toLowerCase`, character by character. -/
def jsToLower (s : String) : String := String.mk (s.data.map Char.toLower)

/-- Whether `pat` occurs as a substring of `l`. -/
def containsToken (l : List Char) (pat : String) : Bool :=
  (List.range (l.length + 1)).any (fun i => pat.data.isPrefixOf (l.drop i))

/-- The `content.?filter` alternative: `content`, zero or one arbitrary
character, then `filter`. -/
def containsContentFilter (l : List Char) : Bool :=
  (List.range (l.length + 1)).any (fun i =>
    "content".data.isPrefixOf (l.drop i) &&
    ("filter".data.isPrefixOf (l.drop (i + 7)) ||
     "filter".data.isPrefixOf (l.drop (i + 8))))

/-- The non-retryable classifier of `summarizeScene`, applied to the
lower-cased error text:
`/prohibit|content.?filter|refus|safety|moderat|blocked|policy|unauthorized|forbidden|400|401|403|429/`. -/
def nonRetryablePattern (errMsg : String) : Bool :=
  let l := errMsg.data
  containsToken l "prohibit" || containsContentFilter l ||
  containsToken l "refus" || containsToken l "safety" ||
  containsToken l "moderat" || containsToken l "blocked" ||
  containsToken l "policy" || containsToken l "unauthorized" ||
  containsToken l "forbidden" || containsToken l "400" ||
  containsToken l "401" || containsToken l "403" || containsToken l "429"

/-- A regex word character, for `\b` boundaries. -/
def isWordChar (ch : Char) : Bool :=
  (decide (ch ≥ 'a') && decide (ch ≤ 'z')) ||
  (decide (ch ≥ 'A') && decide (ch ≤ 'Z')) ||
  (decide (ch ≥ '0') && decide (ch ≤ '9')) || ch = '_'

/-- Whether `pat` matches at position `i` of `l` with `\b` boundaries on
both sides (every phrase of the refusal pattern starts and ends with a
word character, so the boundary reduces to a non-word neighbour). -/
def refusalHitAt (l : List Char) (pat : List Char) (i : Nat) : Bool :=
  pat.isPrefixOf (l.drop i) &&
  (decide (i = 0) || !isWordChar (l.getD (i - 1) ' ')) &&
  (decide (l.length ≤ i + pat.length) || !isWordChar (l.getD (i + pat.length) ' '))

/-- An apostrophe, as it appears inside the refusal phrases. -/
def apos : String := String.singleton (Char.ofNat 39)

/-- The alternatives of the refusal heuristic
`/\b(i cannot|i can't|i'm unable|i am unable|not able to|content policy|violat|against my|guidelines)\b/i`. -/
def refusalPhrases : List String :=
  ["i cannot", "i can" ++ apos ++ "t", "i" ++ apos ++ "m unable", "i am unable",
   "not able to", "content policy", "violat", "against my", "guidelines"]

/-- The refusal heuristic applied to a trimmed response (the `/i` flag is
modelled by lower-casing the text; the phrases are already lower case). -/
def refusalPattern (text : String) : Bool :=
  let l := (jsToLower text).data
  refusalPhrases.any (fun p =>
    (List.range (l.length + 1)).any (refusalHitAt l p.data))

/-- The `LLM returned blank summary after N attempt(s)` message. -/
def blankSummaryMsg (maxAttempts : Nat) : String :=
  "LLM returned blank summary after " ++ toString maxAttempts ++ " attempt" ++
  (if maxAttempts ≠ 1 then "s" else "")

/-- Result of the retry loop of `summarizeScene` (lines 252-301):
cancelled via the abort signal, an error that escapes to the outer catch,
or a successful summary.  `calls` counts the `generateRaw` invocations. -/
inductive LoopResult where
  | cancelled
  | failed (errMsg : String) (calls : Nat)
  | succeeded (summary : String) (calls : Nat)
deriving DecidableEq, Repr

/-- The body of the retry loop of `summarizeScene`.  `fuel` counts the
iterations left (`maxAttempts + 1 - attempt`, so the `attempt ≤
maxAttempts` loop condition is `fuel ≠ 0`); running out of fuel is the
loop falling through to `if (!summary) throw blank`. -/
def summarizeLoopGo (signalAborted : Bool) (genCall : Nat → GenOutcome)
    (maxAttempts : Nat) : Nat → Nat → Nat → LoopResult
  | 0, _, calls => .failed (blankSummaryMsg maxAttempts) calls
  | fuel + 1, attempt, calls =>
    if signalAborted then .cancelled
    else
      match genCall attempt with
      | .thrown errMsg =>
        if signalAborted then .cancelled
        else
          let low := jsToLower errMsg
          if nonRetryablePattern low ∨ maxAttempts ≤ attempt then
            .failed errMsg (calls + 1)
          else summarizeLoopGo signalAborted genCall maxAttempts fuel (attempt + 1) (calls + 1)
      | .returned result =>
        if signalAborted then .cancelled
        else
          match result with
          | some r =>
            if 0 < r.trim.length then
              let trimmed := r.trim
              if trimmed.length < 200 ∧ refusalPattern trimmed then
                .failed ("LLM refused to summarize (possible content filter): \"" ++
                  (trimmed.take 120) ++ "...\"") (calls + 1)
              else .succeeded trimmed (calls + 1)
            else summarizeLoopGo signalAborted genCall maxAttempts fuel (attempt + 1) (calls + 1)
          | none => summarizeLoopGo signalAborted genCall maxAttempts fuel (attempt + 1) (calls + 1)

/-- The retry loop of `summarizeScene` (lines 252-301): attempts run from
1 up to `maxAttempts`; a thrown error is retried unless the non-retryable
classifier matches or the attempts are exhausted; a blank response is
retried; a short refusal-flavoured response fails immediately; exhausting
all attempts without a summary fails with the blank-summary message.
`genCall a` is the outcome of the `generateRaw` call on attempt `a`. -/
def summarizeLoop (signalAborted : Bool) (genCall : Nat → GenOutcome)
    (maxAttempts : Nat) : LoopResult :=
  summarizeLoopGo signalAborted genCall maxAttempts maxAttempts 1 0

/-- The scene-state effect of `summarizeScene`'s catch handler (lines
358-376): an abort reverts to `defined` with `lastError` cleared; any
other escaping error sets `error` with the cause recorded.  The success
branch continues into summary-message insertion, which updates the scene
elsewhere; it is left unchanged here. -/
def summarizeCatchUpdate (scene : Scene) : LoopResult → Scene
  | .cancelled => { scene with status := .defined, lastError := none }
  | .failed errMsg _ => { scene with status := .error, lastError := some errMsg }
  | .succeeded _ _ => scene

/-- The state of a `SummarizationQueue` together with the scene store it
updates.  `activeAborted` models the active item's `AbortController`
signal. -/
structure QueueState where
  pending : List String
  activeId : Option String
  activeAborted : Bool
  processing : Bool
  batchTotal : Nat
  batchDone : Nat
  scenes : Store
deriving DecidableEq, Repr

/-- `add(sceneId)`: no-op when already pending or active; otherwise append
to the pending list, bump the batch total, and mark the scene `queued`. -/
def qAdd (q : QueueState) (sceneId : String) : QueueState :=
  if sceneId ∈ q.pending ∨ q.activeId = some sceneId then q
  else
    { q with
      pending := q.pending ++ [sceneId],
      batchTotal := q.batchTotal + 1,
      scenes := updateScene q.scenes sceneId (fun s => { s with status := .queued }) }

/-- `addAll(sceneIds)`: reset the batch counters to the current
pending+active count, then `add` each id. -/
def qAddAll (q : QueueState) (sceneIds : List String) : QueueState :=
  let q1 := { q with
    batchTotal := q.pending.length + (if q.activeId.isSome then 1 else 0),
    batchDone := 0 }
  sceneIds.foldl qAdd q1

/-- The cancellation body shared by `cancel` and `cancelAll`: a stored
scene still in `queued` reverts to `defined`; anything else is left
alone. -/
def revertIfQueued (st : Store) (id : String) : Store :=
  match storeGet st id with
  | some s =>
      if s.status = .queued then storeSet st id { s with status := .defined }
      else st
  | none => st

/-- `cancel(sceneId)`: a pending id is removed, reverted from `queued` to
`defined`, and counted as done; the active id only has its abort signal
fired. -/
def qCancel (q : QueueState) (sceneId : String) : QueueState :=
  if sceneId ∈ q.pending then
    { q with
      pending := q.pending.erase sceneId,
      scenes := revertIfQueued q.scenes sceneId,
      batchDone := q.batchDone + 1 }
  else if q.activeId = some sceneId then { q with activeAborted := true }
  else q

/-- `cancelAll()`: fire the active item's abort signal, revert every
pending `queued` scene to `defined`, clear the pending list, zero the
batch counters. -/
def qCancelAll (q : QueueState) : QueueState :=
  let q1 := if q.activeId.isSome then { q with activeAborted := true } else q
  let scenes1 := q1.pending.foldl revertIfQueued q1.scenes
  { q1 with scenes := scenes1, pending := [], batchTotal := 0, batchDone := 0 }

/-- `_processNext` head: on an empty pending list clear all processing
state; otherwise shift the head, mark it active with a fresh (unaborted)
controller. -/
def qStartNext (q : QueueState) : QueueState :=
  match q.pending with
  | [] =>
    { q with processing := false, activeId := none, activeAborted := false,
             batchTotal := 0, batchDone := 0 }
  | sceneId :: rest =>
    { q with processing := true, pending := rest,
             activeId := some sceneId, activeAborted := false }

/-- `summarizeScene` entry (lines 197-204): a scene in
`defined`/`error`/`queued` moves to `summarizing` with `lastError`
cleared; any other status is refused with a warning and no state change. -/
def workerBegin (q : QueueState) : QueueState :=
  match q.activeId with
  | none => q
  | some id =>
    match storeGet q.scenes id with
    | none => q
    | some s =>
      if s.status = .defined ∨ s.status = .error ∨ s.status = .queued then
        { q with scenes :=
            storeSet q.scenes id { s with status := .summarizing, lastError := none } }
      else q

/-- `summarizeScene`'s AbortError handler (lines 358-366) together with
the queue's safety net: the active scene reverts to `defined` with
`lastError` cleared once the abort signal is observed. -/
def workerAbortUnwind (q : QueueState) : QueueState :=
  match q.activeId with
  | none => q
  | some id =>
    { q with scenes :=
        updateScene q.scenes id (fun s => { s with status := .defined, lastError := none }) }

/-- `summarizeScene` success: the active scene becomes `completed`,
folded, with the freshly minted summary-message UUID recorded. -/
def workerComplete (q : QueueState) (summaryUUID : String) : QueueState :=
  match q.activeId with
  | none => q
  | some id =>
    { q with scenes :=
        updateScene q.scenes id (fun s =>
          { s with status := .completed, folded := true,
                   summaryMessageUUID := some summaryUUID }) }

/-- `summarizeScene` non-abort failure: the active scene becomes `error`
with the cause recorded. -/
def workerFail (q : QueueState) (errMsg : String) : QueueState :=
  match q.activeId with
  | none => q
  | some id =>
    { q with scenes :=
        updateScene q.scenes id (fun s => { s with status := .error, lastError := some errMsg }) }

/-- The tail of `_processNext` after the worker settles: count the item as
done and clear the active slot. -/
def qFinishActive (q : QueueState) : QueueState :=
  { q with batchDone := q.batchDone + 1, activeId := none, activeAborted := false }

/-! ## Basic lemmas about the store, the map and the linear scan -/

theorem mapGet_mapSet (m : UUIDMap) (key : String) (v : Nat) (q : String) :
    mapGet (mapSet m key v) q = if key = q then some v else mapGet m q := by
  induction m with
  | nil => by_cases h : key = q <;> simp [mapSet, mapGet, h]
  | cons p rest ih =>
    obtain ⟨k, w⟩ := p
    by_cases hk : k = key
    · subst hk
      by_cases hq : k = q <;> simp [mapSet, mapGet, hq]
    · by_cases hq : k = q
      · subst hq
        rw [show mapSet ((k, w) :: rest) key v = (k, w) :: mapSet rest key v from by
              simp [mapSet, hk]]
        rw [show mapGet ((k, w) :: mapSet rest key v) k = some w from by simp [mapGet]]
        rw [show mapGet ((k, w) :: rest) k = some w from by simp [mapGet]]
        rw [if_neg (fun h => hk h.symm)]
      · simp [mapSet, mapGet, hk, hq, ih]

theorem storeGet_storeSet (st : Store) (key : String) (s : Scene) (q : String) :
    storeGet (storeSet st key s) q = if key = q then some s else storeGet st q := by
  induction st with
  | nil => by_cases h : key = q <;> simp [storeSet, storeGet, h]
  | cons p rest ih =>
    obtain ⟨k, w⟩ := p
    by_cases hk : k = key
    · subst hk
      by_cases hq : k = q <;> simp [storeSet, storeGet, hq]
    · by_cases hq : k = q
      · subst hq
        rw [show storeSet ((k, w) :: rest) key s = (k, w) :: storeSet rest key s from by
              simp [storeSet, hk]]
        rw [show storeGet ((k, w) :: storeSet rest key s) k = some w from by simp [storeGet]]
        rw [show storeGet ((k, w) :: rest) k = some w from by simp [storeGet]]
        rw [if_neg (fun h => hk h.symm)]
      · simp [storeSet, storeGet, hk, hq, ih]

/-- Fold invariant helper: a property preserved by every step holds of
the fold's result. -/
theorem foldl_invariant {α : Type _} {β : Type _} (P : α → Prop) (f : α → β → α)
    (l : List β) (init : α) (h0 : P init)
    (hstep : ∀ a b, b ∈ l → P a → P (f a b)) : P (l.foldl f init) := by
  induction l generalizing init with
  | nil => exact h0
  | cons x xs ih =>
    exact ih (f init x) (hstep init x (by simp) h0)
      (fun a b hb => hstep a b (by simp [hb]))

theorem storeSet_mem {st : Store} {key : String} {s : Scene} {e : String × Scene}
    (h : e ∈ storeSet st key s) : e = (key, s) ∨ e ∈ st := by
  induction st with
  | nil => simpa [storeSet] using h
  | cons p rest ih =>
    obtain ⟨k, w⟩ := p
    by_cases hk : k = key
    · subst hk
      simp [storeSet] at h
      rcases h with h | h
      · exact Or.inl (by simp [h])
      · exact Or.inr (by simp [h])
    · simp [storeSet, hk] at h
      rcases h with h | h
      · exact Or.inr (by simp [h])
      · rcases ih h with h1 | h1
        · exact Or.inl h1
        · exact Or.inr (by simp [h1])

theorem storeErase_mem {st : Store} {key : String} {e : String × Scene}
    (h : e ∈ storeErase st key) : e ∈ st := by
  induction st with
  | nil => simp [storeErase] at h
  | cons p rest ih =>
    obtain ⟨k, w⟩ := p
    by_cases hk : k = key
    · simp [storeErase, hk] at h
      exact List.mem_cons_of_mem _ (ih h)
    · simp [storeErase, hk] at h
      rcases h with h | h
      · simp [h]
      · exact List.mem_cons_of_mem _ (ih h)

theorem storeGet_mem {st : Store} {k : String} {s : Scene}
    (h : storeGet st k = some s) : (k, s) ∈ st := by
  induction st with
  | nil => simp [storeGet] at h
  | cons p rest ih =>
    obtain ⟨k0, s0⟩ := p
    by_cases hk : k0 = k
    · subst hk
      simp [storeGet] at h
      simp [h]
    · simp [storeGet, hk] at h
      exact List.mem_cons_of_mem _ (ih h)

theorem storeSet_self {st : Store} {k : String} {s : Scene}
    (h : storeGet st k = some s) : storeSet st k s = st := by
  induction st with
  | nil => simp [storeGet] at h
  | cons p rest ih =>
    obtain ⟨k0, s0⟩ := p
    by_cases hk : k0 = k
    · subst hk
      simp [storeGet] at h
      simp [storeSet, h]
    · simp [storeGet, hk] at h
      simp [storeSet, hk, ih h]

/-- Case analysis for the scan walker: either no element of the suffix
carries the UUID, or the scan returns the offset of the first carrier. -/
theorem scanAux_spec (uuid : String) (l : List Message) (i : Nat) :
    (linearScanAux uuid i l = -1 ∧ ∀ k, ((l.get? k).bind msgUUID) ≠ some uuid) ∨
    (∃ j, linearScanAux uuid i l = Int.ofNat (i + j) ∧
      ((l.get? j).bind msgUUID) = some uuid ∧
      ∀ k, k < j → ((l.get? k).bind msgUUID) ≠ some uuid) := by
  induction l generalizing i with
  | nil => exact Or.inl ⟨rfl, by intro k; simp⟩
  | cons m rest ih =>
    by_cases hm : msgUUID m = some uuid
    · refine Or.inr ⟨0, ?_, ?_, ?_⟩
      · simp [linearScanAux, hm]
      · simpa using hm
      · intro k hk
        omega
    · rcases ih (i + 1) with ⟨h1, h2⟩ | ⟨j, h1, h2, h3⟩
      · refine Or.inl ⟨by simp [linearScanAux, hm, h1], ?_⟩
        intro k
        match k with
        | 0 => simpa using hm
        | k + 1 => simpa using h2 k
      · refine Or.inr ⟨j + 1, ?_, ?_, ?_⟩
        · simp only [linearScanAux, hm, if_false]
          rw [h1]
          congr 1
          omega
        · simpa using h2
        · intro k hk
          match k with
          | 0 => simpa using hm
          | k + 1 =>
            simp only [List.get?_cons_succ]
            exact h3 k (by omega)

theorem linearScan_neg_iff (chat : List Message) (uuid : String) :
    linearScan chat uuid = -1 ↔ ∀ k, chatUUIDAt chat k ≠ some uuid := by
  rcases scanAux_spec uuid chat 0 with ⟨h1, h2⟩ | ⟨j, h1, h2, h3⟩
  · exact ⟨fun _ k => h2 k, fun _ => h1⟩
  · constructor
    · intro h
      simp only [linearScan] at h
      rw [h1] at h
      exact absurd h (by simp)
    · intro h
      exact absurd h2 (h j)

theorem linearScan_some_iff (chat : List Message) (uuid : String) (j : Nat) :
    linearScan chat uuid = Int.ofNat j ↔
    (chatUUIDAt chat j = some uuid ∧ ∀ k, k < j → chatUUIDAt chat k ≠ some uuid) := by
  rcases scanAux_spec uuid chat 0 with ⟨h1, h2⟩ | ⟨j', h1, h2, h3⟩
  · constructor
    · intro h
      simp only [linearScan] at h
      rw [h1] at h
      exact absurd h.symm (by simp)
    · rintro ⟨hj, _⟩
      exact absurd hj (h2 j)
  · constructor
    · intro h
      simp only [linearScan] at h
      rw [h1] at h
      rw [Int.ofNat_eq_natCast, Int.ofNat_eq_natCast] at h
      have hjj : j' = j := by omega
      subst hjj
      exact ⟨h2, h3⟩
    · rintro ⟨hj, hlt⟩
      simp only [linearScan]
      rw [h1]
      have hjj : j = j' := by
        rcases Nat.lt_trichotomy j j' with hc | hc | hc
        · exact absurd hj (h3 j hc)
        · exact hc
        · exact absurd h2 (hlt j' hc)
      subst hjj
      rw [Int.ofNat_eq_natCast, Int.ofNat_eq_natCast]
      omega

/-- A position carrying a UUID is inside the chat. -/
theorem chatUUIDAt_lt {chat : List Message} {j : Nat} {u : String}
    (h : chatUUIDAt chat j = some u) : j < chat.length := by
  by_contra hlt
  rw [chatUUIDAt, List.get?_eq_none.mpr (by omega)] at h
  simp at h

/-- Every binding of the built index points back at a message carrying
that UUID (the last such message, but soundness is all we need). -/
theorem buildUUIDIndex_sound (chat : List Message) :
    ∀ u i, mapGet (buildUUIDIndex chat) u = some i → chatUUIDAt chat i = some u := by
  rw [buildUUIDIndex]
  refine foldl_invariant
    (fun idx => ∀ u i, mapGet idx u = some i → chatUUIDAt chat i = some u)
    _ _ _ ?_ ?_
  · intro u i h
    simp [mapGet] at h
  · intro idx a _ hidx u i h
    split at h
    case h_2 => exact hidx u i h
    case h_1 v heq =>
      by_cases hv : v = ""
      · rw [if_pos hv] at h
        exact hidx u i h
      · rw [if_neg hv] at h
        rw [mapGet_mapSet] at h
        by_cases huv : v = u
        · rw [if_pos huv] at h
          cases h
          rw [heq, huv]
        · rw [if_neg huv] at h
          exact hidx u i h

/-- Stable identifiers are pairwise distinct across live messages: the
healthy state the duplication pass restores. -/
def UUIDsInjective (chat : List Message) : Prop :=
  ∀ i j u, chatUUIDAt chat i = some u → chatUUIDAt chat j = some u → i = j

/-! ## C7 — cached vs uncached resolution -/

/-- A two-message chat where both messages carry the UUID `"a"`: the
cache binds `"a"` to the last index. -/
def chatDupUUID : List Message :=
  [{ extra := some { scene_fold_uuid := some "a" } },
   { extra := some { scene_fold_uuid := some "a" } }]

/-- C7, counterexample: with a duplicated UUID the cached lookup returns
the last occurrence (1) after successfully validating it, while the
uncached linear scan returns the first occurrence (0), so the two
resolutions differ. -/
theorem c7_cached_resolution_differs_from_scan :
    findMessageIndexByUUID chatDupUUID "a" (some (buildUUIDIndex chatDupUUID)) = 1 ∧
    findMessageIndexByUUID chatDupUUID "a" none = 0 ∧
    findMessageIndexByUUID chatDupUUID "a" (some (buildUUIDIndex chatDupUUID)) ≠
      findMessageIndexByUUID chatDupUUID "a" none := by
  refine ⟨by decide, by decide, by decide⟩

/-- C7, amended: when no stable identifier is carried by two distinct
live messages, resolving with the precomputed cache agrees with the
uncached full linear scan for every identifier. -/
theorem c7_cached_resolution_eq_scan_of_injective (chat : List Message)
    (hinj : UUIDsInjective chat) (uuid : String) :
    findMessageIndexByUUID chat uuid (some (buildUUIDIndex chat)) =
    findMessageIndexByUUID chat uuid none := by
  simp only [findMessageIndexByUUID]
  rcases hget : mapGet (buildUUIDIndex chat) uuid with _ | idx
  · rfl
  · have hidx := buildUUIDIndex_sound chat uuid idx hget
    show (if chatUUIDAt chat idx = some uuid then Int.ofNat idx else linearScan chat uuid) =
      linearScan chat uuid
    rw [if_pos hidx]
    rcases scanAux_spec uuid chat 0 with ⟨h1, h2⟩ | ⟨j, h1, h2, h3⟩
    · exact absurd hidx (h2 idx)
    · have hj : chatUUIDAt chat j = some uuid := h2
      have hji : j = idx := hinj j idx uuid hj hidx
      subst hji
      simp only [linearScan]
      rw [h1]
      congr 1
      omega

/-- A concrete chat with two distinct UUIDs. -/
def chatAB : List Message :=
  [{ extra := some { scene_fold_uuid := some "a" } },
   { extra := some { scene_fold_uuid := some "b" } }]

/-- `chatAB` carries pairwise distinct identifiers. -/
theorem chatAB_injective : UUIDsInjective chatAB := by
  intro i j u hi hj
  match i, j with
  | 0, 0 => rfl
  | 1, 1 => rfl
  | 0, 1 =>
    have ha : u = "a" := Option.some.inj hi.symm
    subst ha
    exact absurd (Option.some.inj hj) (by decide)
  | 1, 0 =>
    have hb : u = "b" := Option.some.inj hi.symm
    subst hb
    exact absurd (Option.some.inj hj) (by decide)
  | 0, n + 2 =>
    exact absurd hj (by intro h; exact Option.noConfusion h)
  | 1, n + 2 =>
    exact absurd hj (by intro h; exact Option.noConfusion h)
  | n + 2, _ =>
    exact absurd hi (by intro h; exact Option.noConfusion h)

/-- C7, witness: the amended equivalence applied at a concrete injective
chat, where both sides evaluate. -/
theorem c7_witness :
    findMessageIndexByUUID chatAB "b" (some (buildUUIDIndex chatAB)) =
    findMessageIndexByUUID chatAB "b" none :=
  c7_cached_resolution_eq_scan_of_injective chatAB chatAB_injective "b"

/-! ## C10 — createScene performs no range validation -/

/-- C10: when no index of the requested inclusive range holds a chat
message, `createScene` still mints a scene id, stores a scene record with
an empty `sourceMessageUUIDs` list and status `defined`, returns that
record, and leaves the chat unchanged. -/
theorem c10_createScene_empty_range (store : Store) (chat : List Message)
    (startIndex endIndex : Nat) (gen : Nat → String) (c : Nat)
    (customPrompt : Option String) (now : Nat)
    (h : ∀ i, startIndex ≤ i → i ≤ endIndex → chat.get? i = none) :
    (createScene store chat startIndex endIndex gen c customPrompt now).2.2.1.sourceMessageUUIDs = [] ∧
    (createScene store chat startIndex endIndex gen c customPrompt now).2.2.1.status = .defined ∧
    (createScene store chat startIndex endIndex gen c customPrompt now).2.2.1.id = gen c ∧
    storeGet (createScene store chat startIndex endIndex gen c customPrompt now).1 (gen c) =
      some (createScene store chat startIndex endIndex gen c customPrompt now).2.2.1 ∧
    (createScene store chat startIndex endIndex gen c customPrompt now).2.1 = chat := by
  have hfold : (List.range' startIndex (endIndex + 1 - startIndex)).foldl
      (createSceneStep (gen c) gen) (chat, ([] : List String), c + 1) =
      (chat, ([] : List String), c + 1) := by
    refine foldl_invariant (fun acc => acc = (chat, ([] : List String), c + 1)) _ _ _ rfl ?_
    intro acc i hi hacc
    subst hacc
    have hnone : chat.get? i = none := by
      rw [List.mem_range'_1] at hi
      exact h i hi.1 (by omega)
    simp only [createSceneStep]
    split
    · rfl
    next msg heq =>
      rw [hnone] at heq
      cases heq
  simp only [createScene, hfold]
  refine ⟨trivial, trivial, trivial, ?_, trivial⟩
  rw [storeGet_storeSet]
  rw [if_pos rfl]

/-- C10, witness: a one-message chat and the range `[5, 7]` entirely past
its end. -/
theorem c10_witness :
    (createScene [] [({ extra := none } : Message)] 5 7 (fun n => "g" ++ toString n) 0 none 0).2.2.1.sourceMessageUUIDs = [] ∧
    (createScene [] [({ extra := none } : Message)] 5 7 (fun n => "g" ++ toString n) 0 none 0).2.2.1.status = .defined ∧
    (createScene [] [({ extra := none } : Message)] 5 7 (fun n => "g" ++ toString n) 0 none 0).2.2.1.id = "g0" ∧
    storeGet (createScene [] [({ extra := none } : Message)] 5 7 (fun n => "g" ++ toString n) 0 none 0).1 "g0" =
      some (createScene [] [({ extra := none } : Message)] 5 7 (fun n => "g" ++ toString n) 0 none 0).2.2.1 ∧
    (createScene [] [({ extra := none } : Message)] 5 7 (fun n => "g" ++ toString n) 0 none 0).2.1 =
      [({ extra := none } : Message)] :=
  c10_createScene_empty_range [] [{ extra := none }] 5 7 (fun n => "g" ++ toString n) 0 none 0
    (fun i h1 _ => List.get?_eq_none.mpr (by simp; omega))

/-! ## C4 — result sets of deletion reconciliation -/

/-- A message carrying just a stable UUID. -/
def mkMsg (u : String) : Message := { extra := some { scene_fold_uuid := some u } }

/-- The five possible effects of one `reconcileScenesAfterDeletion`
iteration on the result lists: scene deleted; nothing recorded; recorded
as modified; summary lost (recorded in both `summaryLost` and
`modifiedScenes`); summary lost while the id already sat in
`deletedScenes` (recorded in `summaryLost` only). -/
theorem reconcileStep_result_cases (uuidIndex : UUIDMap) (store : Store)
    (chat : List Message) (result : ReconcileResult) (k : String) (s : Scene) :
    (reconcileStep uuidIndex (store, chat, result) (k, s)).2.2 =
      { result with deletedScenes := result.deletedScenes ++ [k] } ∨
    (reconcileStep uuidIndex (store, chat, result) (k, s)).2.2 = result ∨
    ((reconcileStep uuidIndex (store, chat, result) (k, s)).2.2 =
      { result with modifiedScenes := result.modifiedScenes ++ [k] } ∧
      k ∉ result.deletedScenes) ∨
    ((reconcileStep uuidIndex (store, chat, result) (k, s)).2.2 =
      { result with summaryLost := result.summaryLost ++ [k],
                    modifiedScenes := result.modifiedScenes ++ [k] } ∧
      k ∉ result.deletedScenes) ∨
    ((reconcileStep uuidIndex (store, chat, result) (k, s)).2.2 =
      { result with summaryLost := result.summaryLost ++ [k] } ∧
      k ∈ result.deletedScenes) := by
  simp only [reconcileStep]
  repeat' split
  all_goals first
    | exact Or.inl rfl
    | exact Or.inr (Or.inl rfl)
    | (rename_i hcond; exact Or.inr (Or.inr (Or.inl ⟨rfl, hcond.2⟩)))
    | (rename_i hcond; exact Or.inr (Or.inr (Or.inr (Or.inl ⟨rfl, hcond⟩))))
    | (rename_i hcond; exact Or.inr (Or.inr (Or.inr (Or.inr ⟨rfl, not_not.mp hcond⟩))))

/-- The disjointness shape the result lists actually satisfy. -/
def ResultDisjoint (r : ReconcileResult) : Prop :=
  (∀ x ∈ r.deletedScenes, x ∉ r.modifiedScenes ∧ x ∉ r.summaryLost) ∧
  (∀ x ∈ r.summaryLost, x ∈ r.modifiedScenes)

theorem reconcile_fold_disjoint (uuidIndex : UUIDMap) (l : List (String × Scene)) :
    ∀ (store : Store) (chat : List Message) (r : ReconcileResult),
    (l.map Prod.fst).Nodup →
    (∀ x ∈ l.map Prod.fst,
      x ∉ r.deletedScenes ∧ x ∉ r.modifiedScenes ∧ x ∉ r.summaryLost) →
    ResultDisjoint r →
    ResultDisjoint (l.foldl (reconcileStep uuidIndex) (store, chat, r)).2.2 := by
  induction l with
  | nil => intro store chat r _ _ hr; exact hr
  | cons e rest ih =>
    intro store chat r hnodup hfresh hr
    obtain ⟨k, s⟩ := e
    have hkfresh : k ∉ r.deletedScenes ∧ k ∉ r.modifiedScenes ∧ k ∉ r.summaryLost :=
      hfresh k (by simp)
    have hknodup : k ∉ rest.map Prod.fst := by
      simp only [List.map_cons, List.nodup_cons] at hnodup
      exact hnodup.1
    have hrestnodup : (rest.map Prod.fst).Nodup := by
      simp only [List.map_cons, List.nodup_cons] at hnodup
      exact hnodup.2
    simp only [List.foldl_cons]
    rcases reconcileStep_result_cases uuidIndex store chat r k s with
      hc | hc | ⟨hc, _⟩ | ⟨hc, _⟩ | ⟨_, hmem⟩
    case _ =>
      -- deleted-push
      have := ih (reconcileStep uuidIndex (store, chat, r) (k, s)).1
        (reconcileStep uuidIndex (store, chat, r) (k, s)).2.1
        (reconcileStep uuidIndex (store, chat, r) (k, s)).2.2
        hrestnodup
        (by
          rw [hc]
          intro x hx
          have hne : x ≠ k := fun h => hknodup (h ▸ hx)
          have := hfresh x (by simp [hx])
          refine ⟨?_, this.2.1, this.2.2⟩
          simp only [List.mem_append, List.mem_singleton]
          rintro (h | h)
          · exact this.1 h
          · exact hne h)
        (by
          rw [hc]
          constructor
          · intro x hx
            simp only [List.mem_append, List.mem_singleton] at hx
            rcases hx with hx | hx
            · exact hr.1 x hx
            · subst hx
              exact ⟨hkfresh.2.1, hkfresh.2.2⟩
          · intro x hx
            exact hr.2 x hx)
      simpa using this
    case _ =>
      -- unchanged
      have := ih (reconcileStep uuidIndex (store, chat, r) (k, s)).1
        (reconcileStep uuidIndex (store, chat, r) (k, s)).2.1
        (reconcileStep uuidIndex (store, chat, r) (k, s)).2.2
        hrestnodup
        (by
          rw [hc]
          intro x hx
          exact hfresh x (by simp [hx]))
        (by rw [hc]; exact hr)
      simpa using this
    case _ =>
      -- modified-push
      have := ih (reconcileStep uuidIndex (store, chat, r) (k, s)).1
        (reconcileStep uuidIndex (store, chat, r) (k, s)).2.1
        (reconcileStep uuidIndex (store, chat, r) (k, s)).2.2
        hrestnodup
        (by
          rw [hc]
          intro x hx
          have hne : x ≠ k := fun h => hknodup (h ▸ hx)
          have := hfresh x (by simp [hx])
          refine ⟨this.1, ?_, this.2.2⟩
          simp only [List.mem_append, List.mem_singleton]
          rintro (h | h)
          · exact this.2.1 h
          · exact hne h)
        (by
          rw [hc]
          constructor
          · intro x hx
            have := hr.1 x hx
            refine ⟨?_, this.2⟩
            simp only [List.mem_append, List.mem_singleton]
            rintro (h | h)
            · exact this.1 h
            · subst h
              exact hkfresh.1 hx
          · intro x hx
            exact List.mem_append_left _ (hr.2 x hx))
      simpa using this
    case _ =>
      -- summary lost: pushed to both summaryLost and modifiedScenes
      have := ih (reconcileStep uuidIndex (store, chat, r) (k, s)).1
        (reconcileStep uuidIndex (store, chat, r) (k, s)).2.1
        (reconcileStep uuidIndex (store, chat, r) (k, s)).2.2
        hrestnodup
        (by
          rw [hc]
          intro x hx
          have hne : x ≠ k := fun h => hknodup (h ▸ hx)
          have := hfresh x (by simp [hx])
          refine ⟨this.1, ?_, ?_⟩
          · simp only [List.mem_append, List.mem_singleton]
            rintro (h | h)
            · exact this.2.1 h
            · exact hne h
          · simp only [List.mem_append, List.mem_singleton]
            rintro (h | h)
            · exact this.2.2 h
            · exact hne h)
        (by
          rw [hc]
          constructor
          · intro x hx
            have := hr.1 x hx
            constructor
            · simp only [List.mem_append, List.mem_singleton]
              rintro (h | h)
              · exact this.1 h
              · subst h
                exact hkfresh.1 hx
            · simp only [List.mem_append, List.mem_singleton]
              rintro (h | h)
              · exact this.2 h
              · subst h
                exact hkfresh.1 hx
          · intro x hx
            simp only [List.mem_append, List.mem_singleton] at hx
            rcases hx with hx | hx
            · exact List.mem_append_left _ (hr.2 x hx)
            · subst hx
              simp)
      simpa using this
    case _ =>
      -- summary lost on an already-deleted id: impossible for a fresh key
      exact absurd hmem hkfresh.1

/-- The summary-lost scene of the C4 counterexample: one live source,
`completed`, with a summary UUID that no longer resolves. -/
def sceneSummaryLost : Scene :=
  { id := "s1", summaryMessageUUID := some "gone", sourceMessageUUIDs := ["a"],
    status := .completed, folded := true }

/-- C4, counterexample: a scene whose summary message was deleted lands in
both `summaryLost` and `modifiedScenes`, so the three result sets are not
pairwise disjoint. -/
theorem c4_counterexample :
    "s1" ∈ (reconcileScenesAfterDeletion [("s1", sceneSummaryLost)] [mkMsg "a"]).2.2.modifiedScenes ∧
    "s1" ∈ (reconcileScenesAfterDeletion [("s1", sceneSummaryLost)] [mkMsg "a"]).2.2.summaryLost ∧
    (reconcileScenesAfterDeletion [("s1", sceneSummaryLost)] [mkMsg "a"]).2.2.deletedScenes = [] := by
  refine ⟨by decide, by decide, by decide⟩

/-- C4, amended: for a store with distinct scene ids, `deletedScenes` is
disjoint from both `modifiedScenes` and `summaryLost`; the latter two may
intersect — every summary-lost scene is also recorded as modified. -/
theorem c4_deleted_disjoint_summaryLost_subset_modified (store : Store)
    (chat : List Message) (hkeys : (store.map Prod.fst).Nodup) :
    (∀ x ∈ (reconcileScenesAfterDeletion store chat).2.2.deletedScenes,
      x ∉ (reconcileScenesAfterDeletion store chat).2.2.modifiedScenes ∧
      x ∉ (reconcileScenesAfterDeletion store chat).2.2.summaryLost) ∧
    (∀ x ∈ (reconcileScenesAfterDeletion store chat).2.2.summaryLost,
      x ∈ (reconcileScenesAfterDeletion store chat).2.2.modifiedScenes) := by
  have := reconcile_fold_disjoint (buildUUIDIndex chat) store store chat {}
    hkeys (by intro x _; exact ⟨by simp [ReconcileResult.deletedScenes], by simp, by simp⟩)
    ⟨by intro x hx; simp at hx, by intro x hx; simp at hx⟩
  exact this

/-- C4, witness: the amended disjointness at the concrete summary-lost
store. -/
theorem c4_witness :
    (∀ x ∈ (reconcileScenesAfterDeletion [("s1", sceneSummaryLost)] [mkMsg "a"]).2.2.deletedScenes,
      x ∉ (reconcileScenesAfterDeletion [("s1", sceneSummaryLost)] [mkMsg "a"]).2.2.modifiedScenes ∧
      x ∉ (reconcileScenesAfterDeletion [("s1", sceneSummaryLost)] [mkMsg "a"]).2.2.summaryLost) ∧
    (∀ x ∈ (reconcileScenesAfterDeletion [("s1", sceneSummaryLost)] [mkMsg "a"]).2.2.summaryLost,
      x ∈ (reconcileScenesAfterDeletion [("s1", sceneSummaryLost)] [mkMsg "a"]).2.2.modifiedScenes) :=
  c4_deleted_disjoint_summaryLost_subset_modified [("s1", sceneSummaryLost)] [mkMsg "a"]
    (by decide)

/-! ## C5 — classification of "rate limit" errors -/

/-- Exhausting the retry loop: when every attempt throws the same
retryable (non-matching) error, the loop keeps retrying and fails only
after consuming every attempt, with that error as the cause. -/
theorem summarizeLoopGo_retryAll (gen : Nat → GenOutcome) (errMsg : String)
    (maxAttempts : Nat) (hgen : ∀ a, gen a = .thrown errMsg)
    (hpat : nonRetryablePattern (jsToLower errMsg) = false) :
    ∀ fuel attempt calls, 1 ≤ fuel → attempt + fuel = maxAttempts + 1 →
    summarizeLoopGo false gen maxAttempts fuel attempt calls =
      .failed errMsg (calls + fuel) := by
  intro fuel
  induction fuel with
  | zero => intro attempt calls h _; omega
  | succ f ih =>
    intro attempt calls _ hsum
    simp only [summarizeLoopGo, hgen, hpat]
    match f, ih with
    | 0, _ =>
      have hcond : maxAttempts ≤ attempt := by omega
      simp [hcond]
    | f' + 1, ih =>
      have hcond : ¬(maxAttempts ≤ attempt) := by omega
      simp only [Bool.false_eq_true, false_or, if_neg hcond, if_false]
      have := ih (attempt + 1) (calls + 1) (by omega) (by omega)
      rw [this]
      congr 1
      omega

/-- C5, counterexample: with the default retry budget (`maxRetries = 2`,
so three attempts) and a summarizer that always throws an error whose
message is exactly `"rate limit"`, the loop makes all three
`generateRaw` calls — the error is classified retryable, so the scene
does **not** go straight to `error` on the first failure and the retry
attempts are consumed. -/
theorem c5_counterexample :
    nonRetryablePattern (jsToLower "rate limit") = false ∧
    summarizeLoop false (fun _ => .thrown "rate limit") 3 = .failed "rate limit" 3 ∧
    summarizeLoop false (fun _ => .thrown "rate limit") 3 ≠ .failed "rate limit" 1 := by
  refine ⟨by decide, by decide, by decide⟩

/-- C5, amended: an error whose text matches the non-retryable pattern
(safety/content-filter/auth phrases or the status codes 400/401/403/429)
fails on the first attempt with no retries; an error containing only
"rate limit" does not match, is treated as transient, and reaches
`error` only after all attempts are consumed.  Either way the outer
catch records the cause in `lastError` and sets status `error`. -/
theorem c5_nonretryable_classification (errMsg : String) (maxAttempts : Nat)
    (gen : Nat → GenOutcome) (scene : Scene)
    (hgen : ∀ a, gen a = .thrown errMsg) (hpos : 1 ≤ maxAttempts) :
    (nonRetryablePattern (jsToLower errMsg) = true →
      summarizeLoop false gen maxAttempts = .failed errMsg 1) ∧
    (nonRetryablePattern (jsToLower errMsg) = false →
      summarizeLoop false gen maxAttempts = .failed errMsg maxAttempts) ∧
    (∀ calls, (summarizeCatchUpdate scene (.failed errMsg calls)).status = .error ∧
      (summarizeCatchUpdate scene (.failed errMsg calls)).lastError = some errMsg) := by
  refine ⟨?_, ?_, fun _ => ⟨rfl, rfl⟩⟩
  · intro hpat
    obtain ⟨m, rfl⟩ : ∃ m, maxAttempts = m + 1 := ⟨maxAttempts - 1, by omega⟩
    simp [summarizeLoop, summarizeLoopGo, hgen, hpat]
  · intro hpat
    rw [summarizeLoop]
    have := summarizeLoopGo_retryAll gen errMsg maxAttempts hgen hpat maxAttempts 1 0
      (by omega) (by omega)
    rw [this]
    congr 1
    omega

/-- C5, witness: the amended classification applied at the concrete
always-throwing generators for `"429"` (non-retryable) and
`"rate limit"` (retryable). -/
theorem c5_witness :
    (nonRetryablePattern (jsToLower "rate limit") = true →
      summarizeLoop false (fun _ => .thrown "rate limit") 3 = .failed "rate limit" 1) ∧
    (nonRetryablePattern (jsToLower "rate limit") = false →
      summarizeLoop false (fun _ => .thrown "rate limit") 3 = .failed "rate limit" 3) ∧
    (∀ calls,
      (summarizeCatchUpdate { id := "s" } (.failed "rate limit" calls)).status = .error ∧
      (summarizeCatchUpdate { id := "s" } (.failed "rate limit" calls)).lastError =
        some "rate limit") :=
  c5_nonretryable_classification "rate limit" 3 (fun _ => .thrown "rate limit")
    { id := "s" } (fun _ => rfl) (by decide)

/-! ## C2 — duplication reconciliation -/

/-- The scene of the C2 counterexample: it has `"u"` as a source. -/
def sceneWithU : Scene := { id := "s", sourceMessageUUIDs := ["u"] }

/-- C2, counterexample: two live messages share `"u"` and scene `"s"` has
`"u"` as a source, but the duplicate carries no membership tags, so after
reconciliation the freshly minted identifier `"f0"` is on the duplicate
message and is **not** inserted into the scene's `sourceMessageUUIDs` —
the insertion is keyed on the duplicate's tags, not on which scenes have
the identifier as a source. -/
theorem c2_counterexample :
    chatUUIDAt [mkMsg "u", mkMsg "u"] 0 = some "u" ∧
    chatUUIDAt [mkMsg "u", mkMsg "u"] 1 = some "u" ∧
    "u" ∈ sceneWithU.sourceMessageUUIDs ∧
    chatUUIDAt
      (reconcileDuplicatedMessages [("s", sceneWithU)] [mkMsg "u", mkMsg "u"]
        (fun _ => "f0")).2.1 1 = some "f0" ∧
    (storeGet
      (reconcileDuplicatedMessages [("s", sceneWithU)] [mkMsg "u", mkMsg "u"]
        (fun _ => "f0")).1 "s").map (·.sourceMessageUUIDs) = some ["u"] := by
  refine ⟨by decide, by decide, by decide, by decide, by decide⟩

/-- Overwrite a message's stable UUID in place (the duplicate repair). -/
def setMsgUUID (m : Message) (u : String) : Message :=
  { m with extra := some { (m.extra.getD {}) with scene_fold_uuid := some u } }

/-- The flat list of repairs performed by `reconcileDuplicatedMessages`,
in processing order: for each multiply-occurring UUID (first-seen order),
each occurrence after the first, paired with the original UUID. -/
def dupEvents (chat : List Message) : List (String × Nat) :=
  ((buildOccurrences chat).map (fun p => (p.2.drop 1).map (fun i => (p.1, i)))).flatten

/-- Spec-side statement of the claim's insertion rule: each repair event
`(originalUUID, freshUUID)` inserts the fresh identifier immediately
after the original's current position in the source list, appending when
the original is not found. -/
def applyDupRepairs (old : List String) (events : List (String × String)) : List String :=
  events.foldl (fun l e => insertRepair e.1 e.2 l) old

/-- The insertion events a given scene id receives from a run: one event
per occurrence of the scene id in a duplicate's membership tags, carrying
the original UUID and the fresh identifier (the generator applied to the
repair's rank `r0 + position`). -/
def sceneEventsFrom (chat : List Message) (gen : Nat → String) (k : String) :
    Nat → List (String × Nat) → List (String × String)
  | _, [] => []
  | r0, e :: rest =>
      ((getMessageScenes chat e.2).filter (fun c => c = k)).map (fun _ => (e.1, gen r0)) ++
      sceneEventsFrom chat gen k (r0 + 1) rest

/-- All insertion events a scene id receives from the run. -/
def sceneDupEvents (chat : List Message) (gen : Nat → String) (k : String) :
    List (String × String) :=
  sceneEventsFrom chat gen k 0 (dupEvents chat)

theorem occAdd_keys (occ : List (String × List Nat)) (u : String) (i : Nat) :
    (occAdd occ u i).map Prod.fst =
      if u ∈ occ.map Prod.fst then occ.map Prod.fst else occ.map Prod.fst ++ [u] := by
  induction occ with
  | nil => simp [occAdd]
  | cons p rest ih =>
    obtain ⟨k, l⟩ := p
    by_cases hk : k = u
    · subst hk
      simp [occAdd]
    · simp only [occAdd, if_neg hk, List.map_cons, ih]
      by_cases hu : u ∈ rest.map Prod.fst
      · rw [if_pos hu, if_pos (by simp [hu])]
      · rw [if_neg hu, if_neg ?_, List.cons_append]
        simp only [List.mem_cons]
        push_neg
        exact ⟨fun h => hk h.symm, hu⟩

theorem occAdd_cases {occ : List (String × List Nat)} {u : String} {i : Nat}
    (hnodup : (occ.map Prod.fst).Nodup) {p : String × List Nat}
    (hp : p ∈ occAdd occ u i) :
    (p.1 ≠ u ∧ p ∈ occ) ∨
    (p.1 = u ∧ ((u ∉ occ.map Prod.fst ∧ p.2 = [i]) ∨
      ∃ l0, (u, l0) ∈ occ ∧ p.2 = l0 ++ [i])) := by
  induction occ with
  | nil =>
    simp only [occAdd, List.mem_singleton] at hp
    subst hp
    exact Or.inr ⟨rfl, Or.inl ⟨by simp, rfl⟩⟩
  | cons q rest ih =>
    obtain ⟨k, l⟩ := q
    simp only [List.map_cons, List.nodup_cons] at hnodup
    by_cases hk : k = u
    · subst hk
      rw [show occAdd ((k, l) :: rest) k i = (k, l ++ [i]) :: rest from by
            simp [occAdd]] at hp
      rcases List.mem_cons.mp hp with rfl | hp
      · exact Or.inr ⟨rfl, Or.inr ⟨l, by simp, rfl⟩⟩
      · refine Or.inl ⟨?_, List.mem_cons_of_mem _ hp⟩
        intro h1
        exact hnodup.1 (h1 ▸ List.mem_map_of_mem Prod.fst hp)
    · simp only [occAdd, if_neg hk, List.mem_cons] at hp
      rcases hp with rfl | hp
      · exact Or.inl ⟨fun h => hk h, by simp⟩
      · rcases ih hnodup.2 hp with ⟨h1, h2⟩ | ⟨h1, h2⟩
        · exact Or.inl ⟨h1, List.mem_cons_of_mem _ h2⟩
        · right
          refine ⟨h1, ?_⟩
          rcases h2 with ⟨h2, h3⟩ | ⟨l0, h2, h3⟩
          · refine Or.inl ⟨?_, h3⟩
            simp only [List.map_cons, List.mem_cons]
            push_neg
            exact ⟨fun h => hk h.symm, h2⟩
          · exact Or.inr ⟨l0, List.mem_cons_of_mem _ h2, h3⟩

/-- The invariant of the occurrence map over the first `n` chat indices:
unique keys; each group's index list strictly increasing and consisting
of exactly the positions below `n` carrying that (truthy) UUID; every
truthy UUID below `n` has a group. -/
def occInv (chat : List Message) (occ : List (String × List Nat)) (n : Nat) : Prop :=
  (occ.map Prod.fst).Nodup ∧
  (∀ p ∈ occ, p.2.Pairwise (· < ·) ∧
    ∀ i, i ∈ p.2 ↔ (i < n ∧ chatUUIDAt chat i = some p.1 ∧ p.1 ≠ "")) ∧
  (∀ u i, i < n → chatUUIDAt chat i = some u → u ≠ "" → u ∈ occ.map Prod.fst)

/-- The partial occurrence map after scanning the first `n` indices. -/
def occUpTo (chat : List Message) (n : Nat) : List (String × List Nat) :=
  (List.range n).foldl
    (fun occ i =>
      match chatUUIDAt chat i with
      | some uuid => if uuid = "" then occ else occAdd occ uuid i
      | none => occ)
    []

theorem buildOccurrences_eq_occUpTo (chat : List Message) :
    buildOccurrences chat = occUpTo chat chat.length := rfl

theorem occUpTo_inv (chat : List Message) : ∀ n, occInv chat (occUpTo chat n) n := by
  intro n
  induction n with
  | zero =>
    refine ⟨by simp [occUpTo], ?_, ?_⟩
    · intro p hp
      simp [occUpTo] at hp
    · intro u i hi
      omega
  | succ n ih =>
    obtain ⟨ihk, ihg, ihc⟩ := ih
    rcases hcase : chatUUIDAt chat n with _ | v
    · have hstep : occUpTo chat (n + 1) = occUpTo chat n := by
        simp [occUpTo, List.range_succ, hcase]
      rw [hstep]
      refine ⟨ihk, ?_, ?_⟩
      · intro p hp
        refine ⟨(ihg p hp).1, ?_⟩
        intro i
        rw [(ihg p hp).2 i]
        constructor
        · rintro ⟨h1, h2, h3⟩
          exact ⟨by omega, h2, h3⟩
        · rintro ⟨h1, h2, h3⟩
          refine ⟨?_, h2, h3⟩
          rcases Nat.lt_succ_iff_lt_or_eq.mp h1 with h | h
          · exact h
          · subst h
            rw [hcase] at h2
            cases h2
      · intro u i hi hu hne
        rcases Nat.lt_succ_iff_lt_or_eq.mp hi with h | h
        · exact ihc u i h hu hne
        · subst h
          rw [hcase] at hu
          cases hu
    · by_cases hv : v = ""
      · subst hv
        have hstep : occUpTo chat (n + 1) = occUpTo chat n := by
          simp [occUpTo, List.range_succ, hcase]
        rw [hstep]
        refine ⟨ihk, ?_, ?_⟩
        · intro p hp
          refine ⟨(ihg p hp).1, ?_⟩
          intro i
          rw [(ihg p hp).2 i]
          constructor
          · rintro ⟨h1, h2, h3⟩
            exact ⟨by omega, h2, h3⟩
          · rintro ⟨h1, h2, h3⟩
            refine ⟨?_, h2, h3⟩
            rcases Nat.lt_succ_iff_lt_or_eq.mp h1 with h | h
            · exact h
            · subst h
              rw [hcase] at h2
              exact absurd (Option.some.inj h2).symm h3
        · intro u i hi hu hne
          rcases Nat.lt_succ_iff_lt_or_eq.mp hi with h | h
          · exact ihc u i h hu hne
          · subst h
            rw [hcase] at hu
            exact absurd (Option.some.inj hu).symm hne
      · have hstep : occUpTo chat (n + 1) = occAdd (occUpTo chat n) v n := by
          simp [occUpTo, List.range_succ, hcase, hv]
        rw [hstep]
        refine ⟨?_, ?_, ?_⟩
        · rw [occAdd_keys]
          by_cases hmem : v ∈ (occUpTo chat n).map Prod.fst
          · rw [if_pos hmem]
            exact ihk
          · rw [if_neg hmem]
            simp only [List.nodup_append, List.nodup_cons]
            refine ⟨ihk, by simp, ?_⟩
            intro x hx hxv
            simp only [List.mem_singleton] at hxv
            subst hxv
            exact hmem hx
        · intro p hp
          rcases occAdd_cases ihk hp with ⟨hne, hpmem⟩ | ⟨heq, hrest⟩
          · refine ⟨(ihg p hpmem).1, ?_⟩
            intro i
            rw [(ihg p hpmem).2 i]
            constructor
            · rintro ⟨h1, h2, h3⟩
              exact ⟨by omega, h2, h3⟩
            · rintro ⟨h1, h2, h3⟩
              refine ⟨?_, h2, h3⟩
              rcases Nat.lt_succ_iff_lt_or_eq.mp h1 with h | h
              · exact h
              · subst h
                rw [hcase] at h2
                cases h2
                exact absurd rfl hne
          · rcases hrest with ⟨hnew, hl⟩ | ⟨l0, hl0, hl⟩
            · constructor
              · rw [hl]
                simp
              · intro i
                rw [hl, heq]
                simp only [List.mem_singleton]
                constructor
                · intro h
                  subst h
                  exact ⟨by omega, hcase, hv⟩
                · rintro ⟨h1, h2, h3⟩
                  rcases Nat.lt_succ_iff_lt_or_eq.mp h1 with h | h
                  · exact absurd (ihc v i h h2 h3) hnew
                  · exact h
            · have hgl0 := ihg (v, l0) hl0
              constructor
              · rw [hl]
                rw [List.pairwise_append]
                refine ⟨hgl0.1, by simp, ?_⟩
                intro a ha b hb
                simp only [List.mem_singleton] at hb
                subst hb
                have := (hgl0.2 a).mp ha
                omega
              · intro i
                rw [hl, heq]
                simp only [List.mem_append, List.mem_singleton]
                constructor
                · rintro (h | h)
                  · have := (hgl0.2 i).mp h
                    exact ⟨by omega, this.2.1, this.2.2⟩
                  · subst h
                    exact ⟨by omega, hcase, hv⟩
                · rintro ⟨h1, h2, h3⟩
                  rcases Nat.lt_succ_iff_lt_or_eq.mp h1 with h | h
                  · exact Or.inl ((hgl0.2 i).mpr ⟨h, h2, h3⟩)
                  · exact Or.inr h
        · intro u i hi hu hne
          rw [occAdd_keys]
          by_cases hmem : v ∈ (occUpTo chat n).map Prod.fst
          · rw [if_pos hmem]
            rcases Nat.lt_succ_iff_lt_or_eq.mp hi with h | h
            · exact ihc u i h hu hne
            · subst h
              rw [hcase] at hu
              cases hu
              exact hmem
          · rw [if_neg hmem]
            rcases Nat.lt_succ_iff_lt_or_eq.mp hi with h | h
            · exact List.mem_append_left _ (ihc u i h hu hne)
            · subst h
              rw [hcase] at hu
              cases hu
              simp

/-- Every repair event targets a later occurrence of its (truthy) UUID:
the index carries the UUID and some earlier index carries it too. -/
theorem dupEvents_spec (chat : List Message) :
    ∀ e ∈ dupEvents chat, chatUUIDAt chat e.2 = some e.1 ∧ e.1 ≠ "" ∧
      ∃ j, j < e.2 ∧ chatUUIDAt chat j = some e.1 := by
  intro e he
  obtain ⟨hkeys, hgroups, hcomp⟩ :
      occInv chat (buildOccurrences chat) chat.length := occUpTo_inv chat chat.length
  rw [dupEvents] at he
  rw [List.mem_flatten] at he
  obtain ⟨l, hl, hel⟩ := he
  rw [List.mem_map] at hl
  obtain ⟨p, hp, rfl⟩ := hl
  rw [List.mem_map] at hel
  obtain ⟨i, hi, rfl⟩ := hel
  obtain ⟨hpw, hiff⟩ := hgroups p hp
  have himem : i ∈ p.2 := List.mem_of_mem_drop hi
  have hif := (hiff i).mp himem
  refine ⟨hif.2.1, hif.2.2, ?_⟩
  match hp2 : p.2, hi with
  | h :: t, hi =>
    have hh : h ∈ p.2 := by rw [hp2]; simp
    have hhif := (hiff h).mp hh
    refine ⟨h, ?_, hhif.2.1⟩
    have hpw2 : (h :: t).Pairwise (· < ·) := hp2 ▸ hpw
    rw [List.pairwise_cons] at hpw2
    exact hpw2.1 i (by simpa using hi)

/-- The repaired indices are pairwise distinct. -/
theorem dupEvents_indices_nodup (chat : List Message) :
    ((dupEvents chat).map Prod.snd).Nodup := by
  obtain ⟨hkeys, hgroups, hcomp⟩ :
      occInv chat (buildOccurrences chat) chat.length := occUpTo_inv chat chat.length
  rw [dupEvents, List.map_flatten]
  have hcollapse :
      ((buildOccurrences chat).map
        (fun p => (p.2.drop 1).map (fun i => (p.1, i)))).map (List.map Prod.snd) =
      (buildOccurrences chat).map (fun p => p.2.drop 1) := by
    simp [List.map_map, Function.comp]
  rw [hcollapse, List.nodup_flatten]
  constructor
  · intro l hl
    rw [List.mem_map] at hl
    obtain ⟨p, hp, rfl⟩ := hl
    exact ((hgroups p hp).1.sublist (List.drop_sublist 1 p.2)).imp
      (fun h => ne_of_lt h)
  · apply List.pairwise_map.mpr
    have hpw : (buildOccurrences chat).Pairwise (fun p q => p.1 ≠ q.1) :=
      List.pairwise_map.mp hkeys
    refine hpw.imp_of_mem ?_
    intro p q hp hq hne x hx1 hx2
    have h1 := ((hgroups p hp).2 x).mp (List.mem_of_mem_drop hx1)
    have h2 := ((hgroups q hq).2 x).mp (List.mem_of_mem_drop hx2)
    exact hne (Option.some.inj (h1.2.1.symm.trans h2.2.1))

/-- The earliest occurrence of an identifier is never a repair target. -/
theorem first_occurrence_not_repaired (chat : List Message) {j : Nat} {u : String}
    (hj : chatUUIDAt chat j = some u)
    (hfirst : ∀ k, k < j → chatUUIDAt chat k ≠ some u) :
    ∀ e ∈ dupEvents chat, e.2 ≠ j := by
  intro e he hej
  obtain ⟨h1, _, j', hj', hj'u⟩ := dupEvents_spec chat e he
  rw [hej] at h1 hj'
  have heu : e.1 = u := Option.some.inj (h1.symm.trans hj)
  exact hfirst j' hj' (heu ▸ hj'u)

/-- Every non-earliest occurrence of a truthy identifier is a repair
target. -/
theorem later_occurrence_repaired (chat : List Message) {i i' : Nat} {u : String}
    (hu : u ≠ "") (hi : chatUUIDAt chat i = some u) (hi' : chatUUIDAt chat i' = some u)
    (hlt : i < i') : (u, i') ∈ dupEvents chat := by
  obtain ⟨hkeys, hgroups, hcomp⟩ := occUpTo_inv chat chat.length
  have hi'len : i' < chat.length := chatUUIDAt_lt hi'
  have humem : u ∈ (buildOccurrences chat).map Prod.fst :=
    hcomp u i' hi'len hi' hu
  rw [List.mem_map] at humem
  obtain ⟨p, hp, hpu⟩ := humem
  obtain ⟨hpw, hiff⟩ := hgroups p hp
  have hilen : i < chat.length := chatUUIDAt_lt hi
  have himem : i ∈ p.2 := (hiff i).mpr ⟨hilen, by rw [hpu]; exact hi, by rw [hpu]; exact hu⟩
  have hi'mem : i' ∈ p.2 := (hiff i').mpr ⟨hi'len, by rw [hpu]; exact hi', by rw [hpu]; exact hu⟩
  have hdrop : i' ∈ p.2.drop 1 := by
    match hp2 : p.2, himem, hi'mem, hpw with
    | h :: t, himem, hi'mem, hpw =>
      rw [List.pairwise_cons] at hpw
      rcases List.mem_cons.mp hi'mem with rfl | ht
      · rcases List.mem_cons.mp himem with rfl | ht2
        · omega
        · exact absurd (hpw.1 i ht2) (by omega)
      · simpa using ht
  rw [dupEvents, List.mem_flatten]
  refine ⟨(p.2.drop 1).map (fun k => (p.1, k)), List.mem_map_of_mem _ hp, ?_⟩
  rw [List.mem_map]
  exact ⟨i', hdrop, by rw [hpu]⟩

/-- The rank of a chat index among a list of repair events (the position
of the first event targeting it). -/
def rankIn : List (String × Nat) → Nat → Option Nat
  | [], _ => none
  | e :: rest, i => if e.2 = i then some 0 else (rankIn rest i).map (· + 1)

theorem rankIn_eq_none_iff (P : List (String × Nat)) (i : Nat) :
    rankIn P i = none ↔ i ∉ P.map Prod.snd := by
  induction P with
  | nil => simp [rankIn]
  | cons e rest ih =>
    by_cases he : e.2 = i
    · simp [rankIn, he]
    · rw [rankIn, if_neg he, Option.map_eq_none', ih]
      simp only [List.map_cons, List.mem_cons]
      constructor
      · intro h
        push_neg
        exact ⟨fun h1 => he h1.symm, h⟩
      · intro h
        push_neg at h
        exact h.2

theorem rankIn_eq_some_get (P : List (String × Nat)) (i : Nat) :
    ∀ r, rankIn P i = some r → ∃ h : r < P.length, (P.get ⟨r, h⟩).2 = i := by
  induction P with
  | nil => intro r h; simp [rankIn] at h
  | cons e rest ih =>
    intro r h
    by_cases he : e.2 = i
    · rw [rankIn, if_pos he] at h
      cases h
      exact ⟨by simp, he⟩
    · rw [rankIn, if_neg he] at h
      rcases hrest : rankIn rest i with _ | r0
      · rw [hrest] at h
        simp at h
      · rw [hrest] at h
        simp at h
        obtain ⟨hlt, hget⟩ := ih r0 hrest
        subst h
        exact ⟨by simpa using Nat.succ_lt_succ hlt, by simpa using hget⟩

theorem rankIn_append_of_some (P Q : List (String × Nat)) (i : Nat) (r : Nat)
    (h : rankIn P i = some r) : rankIn (P ++ Q) i = some r := by
  induction P generalizing r with
  | nil => simp [rankIn] at h
  | cons e rest ih =>
    by_cases he : e.2 = i
    · rw [rankIn, if_pos he] at h
      rw [List.cons_append, rankIn, if_pos he]
      exact h
    · rw [rankIn, if_neg he] at h
      rcases hrest : rankIn rest i with _ | r0
      · rw [hrest] at h
        simp at h
      · rw [hrest] at h
        simp at h
        rw [List.cons_append, rankIn, if_neg he, ih r0 hrest]
        simpa using h

theorem rankIn_append_single_of_none (P : List (String × Nat)) (e : String × Nat)
    (i : Nat) (h : rankIn P i = none) :
    rankIn (P ++ [e]) i = if e.2 = i then some P.length else none := by
  induction P with
  | nil => simp [rankIn]
  | cons e0 rest ih =>
    by_cases he0 : e0.2 = i
    · rw [rankIn, if_pos he0] at h
      cases h
    · rw [rankIn, if_neg he0] at h
      rw [List.cons_append, rankIn, if_neg he0]
      rw [ih (by simpa using h)]
      by_cases he : e.2 = i
      · simp [he]
      · simp [he]

/-- Splitting the per-scene event list at a prefix of the repairs. -/
theorem sceneEventsFrom_append (chat : List Message) (gen : Nat → String) (k : String) :
    ∀ (P Q : List (String × Nat)) (r0 : Nat),
    sceneEventsFrom chat gen k r0 (P ++ Q) =
      sceneEventsFrom chat gen k r0 P ++ sceneEventsFrom chat gen k (r0 + P.length) Q := by
  intro P
  induction P with
  | nil => intro Q r0; simp [sceneEventsFrom]
  | cons e rest ih =>
    intro Q r0
    rw [List.cons_append, sceneEventsFrom, sceneEventsFrom, ih, List.append_assoc]
    congr 2
    simp only [List.length_cons]
    congr 1
    omega

theorem applyDupRepairs_append (old : List String) (E1 E2 : List (String × String)) :
    applyDupRepairs old (E1 ++ E2) = applyDupRepairs (applyDupRepairs old E1) E2 := by
  rw [applyDupRepairs, applyDupRepairs, applyDupRepairs, List.foldl_append]

/-- Iterated repair: one `insertRepair` per element of `ticks`. -/
def repeatRepair (origUUID newUUID : String) (ticks : List String) (l : List String) :
    List String :=
  ticks.foldl (fun acc _ => insertRepair origUUID newUUID acc) l

/-- Per-key effect of the inner per-scene loop of `fixDuplicateAt`: the
scene stored at `k` receives one `insertRepair` per occurrence of `k` in
the duplicate's tag list; other keys are untouched. -/
theorem fixStore_get (origUUID newUUID : String) (sceneIds : List String) :
    ∀ (st : Store) (k : String),
    storeGet (sceneIds.foldl
      (fun st sceneId =>
        match storeGet st sceneId with
        | none => st
        | some scene =>
          storeSet st sceneId { scene with
            sourceMessageUUIDs := insertRepair origUUID newUUID scene.sourceMessageUUIDs })
      st) k =
    (storeGet st k).map (fun s =>
      { s with sourceMessageUUIDs := (repeatRepair origUUID newUUID (sceneIds.filter (fun c => c = k)) s.sourceMessageUUIDs) }) := by
  induction sceneIds with
  | nil =>
    intro st k
    rw [List.foldl_nil]
    rcases h : storeGet st k with _ | s
    · rfl
    · simp [repeatRepair]
  | cons c rest ih =>
    intro st k
    rw [List.foldl_cons]
    rcases hc : storeGet st c with _ | s
    · rw [ih st k]
      by_cases hck : c = k
      · subst hck
        rw [hc]
        simp
      · rw [List.filter_cons]
        simp [hck]
    · rw [ih]
      rw [storeGet_storeSet]
      by_cases hck : c = k
      · subst hck
        rw [if_pos rfl, hc]
        rw [List.filter_cons]
        simp [repeatRepair]
      · rw [if_neg hck]
        rw [List.filter_cons]
        simp [hck]

/-- `(l.set i a).get? j` for `i ≠ j`. -/
theorem getq_set_ne {α : Type _} (l : List α) (i j : Nat) (a : α) (h : i ≠ j) :
    (l.set i a).get? j = l.get? j := by
  simp [List.get?_eq_getElem?, List.getElem?_set_ne h]

/-- `(l.set i a).get? i` for an in-range `i`. -/
theorem getq_set_eq {α : Type _} (l : List α) (i : Nat) (a : α) (h : i < l.length) :
    (l.set i a).get? i = some a := by
  simp [List.get?_eq_getElem?, List.getElem?_set_self h]

/-- The nested loops of `reconcileDuplicatedMessages` process exactly the
flat repair-event list, in order. -/
theorem reconcileDup_eq_flat (store : Store) (chat : List Message) (gen : Nat → String) :
    reconcileDuplicatedMessages store chat gen =
      (((dupEvents chat).foldl (fun acc e => fixDuplicateAt gen e.1 acc e.2)
          (store, chat, 0, 0)).1,
       ((dupEvents chat).foldl (fun acc e => fixDuplicateAt gen e.1 acc e.2)
          (store, chat, 0, 0)).2.1,
       ((dupEvents chat).foldl (fun acc e => fixDuplicateAt gen e.1 acc e.2)
          (store, chat, 0, 0)).2.2.2) := by
  have hfold : (buildOccurrences chat).foldl
      (fun acc entry => (entry.2.drop 1).foldl (fixDuplicateAt gen entry.1) acc)
      (store, chat, 0, 0) =
      (dupEvents chat).foldl (fun acc e => fixDuplicateAt gen e.1 acc e.2)
        (store, chat, 0, 0) := by
    rw [dupEvents, List.foldl_flatten, List.foldl_map]
    congr 1
    funext b p
    rw [List.foldl_map]
  simp only [reconcileDuplicatedMessages]
  rw [hfold]

/-- Applying a block of identical repair events is the iterated repair. -/
theorem applyDupRepairs_const_block (l : List String) (ticks : List String)
    (u f : String) :
    applyDupRepairs l (ticks.map (fun _ => (u, f))) = repeatRepair u f ticks l := by
  rw [applyDupRepairs, List.foldl_map, repeatRepair]

/-- The state invariant of the flat repair fold after processing the
prefix `P` of the repair events: the counter and fix count equal the
prefix length; unprocessed chat positions are untouched; the processed
position of rank `r` carries `gen r`; each stored scene has received
exactly its prefix of insertion events. -/
def dupInv (store : Store) (chat : List Message) (gen : Nat → String)
    (P : List (String × Nat)) (acc : Store × List Message × Nat × Nat) : Prop :=
  acc.2.2.1 = P.length ∧ acc.2.2.2 = P.length ∧
  acc.2.1.length = chat.length ∧
  (∀ i, rankIn P i = none → acc.2.1.get? i = chat.get? i) ∧
  (∀ i r, rankIn P i = some r →
    acc.2.1.get? i = (chat.get? i).map (fun m => setMsgUUID m (gen r))) ∧
  (∀ k, storeGet acc.1 k = (storeGet store k).map (fun s =>
    { s with sourceMessageUUIDs := (applyDupRepairs s.sourceMessageUUIDs (sceneEventsFrom chat gen k 0 P)) }))

theorem dupInv_base (store : Store) (chat : List Message) (gen : Nat → String) :
    dupInv store chat gen [] (store, chat, 0, 0) := by
  refine ⟨rfl, rfl, rfl, fun i _ => rfl, ?_, ?_⟩
  · intro i r h
    simp [rankIn] at h
  · intro k
    rcases h : storeGet store k with _ | s
    · rfl
    · simp [sceneEventsFrom, applyDupRepairs]

theorem dupInv_step (store : Store) (chat : List Message) (gen : Nat → String)
    (P : List (String × Nat)) (acc : Store × List Message × Nat × Nat)
    (e : String × Nat) (hinv : dupInv store chat gen P acc)
    (hnotin : e.2 ∉ P.map Prod.snd)
    (hproj : chatUUIDAt chat e.2 = some e.1) :
    dupInv store chat gen (P ++ [e]) (fixDuplicateAt gen e.1 acc e.2) := by
  obtain ⟨hc, hf, hlen, hnone, hsome, hstore⟩ := hinv
  have hrank : rankIn P e.2 = none := (rankIn_eq_none_iff P e.2).mpr hnotin
  have hchat : acc.2.1.get? e.2 = chat.get? e.2 := hnone e.2 hrank
  obtain ⟨m, hm⟩ : ∃ m, chat.get? e.2 = some m := by
    rcases hg : chat.get? e.2 with _ | m
    · rw [chatUUIDAt, hg] at hproj
      simp at hproj
    · exact ⟨m, rfl⟩
  have hmacc : acc.2.1.get? e.2 = some m := hchat.trans hm
  have hlt : e.2 < chat.length := by
    by_contra hge
    rw [List.get?_eq_none.mpr (by omega)] at hm
    cases hm
  have hfix : fixDuplicateAt gen e.1 acc e.2 =
      ((((m.extra.getD {}).scene_fold_scenes).getD []).foldl
        (fun st sceneId =>
          match storeGet st sceneId with
          | none => st
          | some scene =>
            storeSet st sceneId { scene with
              sourceMessageUUIDs := insertRepair e.1 (gen acc.2.2.1) scene.sourceMessageUUIDs })
        acc.1,
       acc.2.1.set e.2 (setMsgUUID m (gen acc.2.2.1)),
       acc.2.2.1 + 1, acc.2.2.2 + 1) := by
    simp only [fixDuplicateAt, hmacc, setMsgUUID]
  rw [hfix]
  have htags : ((m.extra.getD {}).scene_fold_scenes).getD [] = getMessageScenes chat e.2 := by
    rw [getMessageScenes, hm]
    show _ = ((m.extra).bind (·.scene_fold_scenes)).getD []
    rcases m.extra with _ | ex
    · rfl
    · rfl
  refine ⟨by simp [hc], by simp [hf], by simp [hlen], ?_, ?_, ?_⟩
  · intro i hi
    have hiP : rankIn P i = none := by
      rw [rankIn_eq_none_iff] at hi ⊢
      intro hmem
      exact hi (by rw [List.map_append]; exact List.mem_append_left _ hmem)
    have hine : e.2 ≠ i := by
      intro heq
      rw [rankIn_eq_none_iff] at hi
      refine hi ?_
      rw [List.map_append]
      refine List.mem_append_right _ ?_
      simp [heq]
    show (acc.2.1.set e.2 _).get? i = chat.get? i
    rw [getq_set_ne _ _ _ _ hine]
    exact hnone i hiP
  · intro i r hi
    rcases hP : rankIn P i with _ | r0
    · have := rankIn_append_single_of_none P e i hP
      rw [this] at hi
      by_cases hei : e.2 = i
      · rw [if_pos hei] at hi
        cases hi
        subst hei
        show (acc.2.1.set e.2 _).get? e.2 = _
        rw [getq_set_eq _ _ _ (by rw [hlen]; exact hlt)]
        rw [hm, hc]
        rfl
      · rw [if_neg hei] at hi
        cases hi
    · have := rankIn_append_of_some P [e] i r0 hP
      rw [this] at hi
      have heq : r0 = r := Option.some.inj hi
      subst heq
      have hine : e.2 ≠ i := by
        intro heq
        rw [heq, hP] at hrank
        cases hrank
      show (acc.2.1.set e.2 _).get? i = _
      rw [getq_set_ne _ _ _ _ hine]
      exact hsome i r0 hP
  · intro k
    rw [fixStore_get]
    rw [hstore k]
    rw [Option.map_map]
    rcases hsk : storeGet store k with _ | s
    · rfl
    · simp only [Option.map_some']
      rw [sceneEventsFrom_append, applyDupRepairs_append]
      rw [show sceneEventsFrom chat gen k (0 + P.length) [e] =
            ((getMessageScenes chat e.2).filter (fun c => c = k)).map
              (fun _ => (e.1, gen (0 + P.length))) from by
        simp [sceneEventsFrom]]
      rw [applyDupRepairs_const_block, Nat.zero_add, hc, htags]
      rfl

theorem dupFold_inv (store : Store) (chat : List Message) (gen : Nat → String) :
    ∀ (Q P : List (String × Nat)), P ++ Q = dupEvents chat →
    ∀ acc, dupInv store chat gen P acc →
    dupInv store chat gen (P ++ Q)
      (Q.foldl (fun a e => fixDuplicateAt gen e.1 a e.2) acc) := by
  intro Q
  induction Q with
  | nil =>
    intro P _ acc hacc
    simpa using hacc
  | cons e rest ih =>
    intro P hPQ acc hacc
    rw [List.foldl_cons]
    have hmemE : e ∈ dupEvents chat := by
      rw [← hPQ]
      simp
    have hproj := (dupEvents_spec chat e hmemE).1
    have hnotin : e.2 ∉ P.map Prod.snd := by
      have hnd := dupEvents_indices_nodup chat
      rw [← hPQ, List.map_append, List.nodup_append] at hnd
      intro hmem
      exact hnd.2.2 hmem (by simp)
    have hstep := dupInv_step store chat gen P acc e hacc hnotin hproj
    have hres := ih (P ++ [e]) (by rw [← hPQ]; simp) _ hstep
    have hPe : (P ++ [e]) ++ rest = P ++ e :: rest := by simp
    rw [hPe] at hres
    exact hres

/-- C2, amended: after duplication reconciliation (with a generator that
is injective and fresh for the chat, on a chat without empty-string
identifiers), (a) the returned count is the number of repair events;
(b) every stored scene's source list equals the original with, for each
occurrence of the scene id in a duplicate's membership tags, the fresh
identifier inserted immediately after the original identifier's current
position (appended when absent) — keyed on the duplicate's tags, not on
source membership; (c) no two live messages share an identifier; (d) the
earliest occurrence of each identifier keeps it. -/
theorem c2_duplication_reconciliation (store : Store) (chat : List Message)
    (gen : Nat → String)
    (hfresh : ∀ n i, chatUUIDAt chat i ≠ some (gen n))
    (hinj : ∀ m n, gen m = gen n → m = n)
    (hne : ∀ i, chatUUIDAt chat i ≠ some "") :
    (reconcileDuplicatedMessages store chat gen).2.2 = (dupEvents chat).length ∧
    (∀ k, storeGet (reconcileDuplicatedMessages store chat gen).1 k =
      (storeGet store k).map (fun s =>
        { s with sourceMessageUUIDs := (applyDupRepairs s.sourceMessageUUIDs (sceneDupEvents chat gen k)) })) ∧
    UUIDsInjective (reconcileDuplicatedMessages store chat gen).2.1 ∧
    (∀ j u, chatUUIDAt chat j = some u →
      (∀ k0, k0 < j → chatUUIDAt chat k0 ≠ some u) →
      chatUUIDAt (reconcileDuplicatedMessages store chat gen).2.1 j = some u) := by
  have hflat := reconcileDup_eq_flat store chat gen
  have hinv := dupFold_inv store chat gen (dupEvents chat) [] (by simp)
    (store, chat, 0, 0) (dupInv_base store chat gen)
  rw [List.nil_append] at hinv
  obtain ⟨hc, hf, hlen, hnone, hsome, hstore⟩ := hinv
  have hmemIdx : ∀ i r, rankIn (dupEvents chat) i = some r →
      ∃ e ∈ dupEvents chat, e.2 = i := by
    intro i r h
    obtain ⟨hlt2, hget⟩ := rankIn_eq_some_get (dupEvents chat) i r h
    exact ⟨(dupEvents chat).get ⟨r, hlt2⟩, List.get_mem _ _ _, hget⟩
  have hprojNone : ∀ i, rankIn (dupEvents chat) i = none →
      chatUUIDAt ((dupEvents chat).foldl (fun a e => fixDuplicateAt gen e.1 a e.2)
        (store, chat, 0, 0)).2.1 i = chatUUIDAt chat i := by
    intro i h
    rw [chatUUIDAt, chatUUIDAt, hnone i h]
  have hprojSome : ∀ i r, rankIn (dupEvents chat) i = some r →
      chatUUIDAt ((dupEvents chat).foldl (fun a e => fixDuplicateAt gen e.1 a e.2)
        (store, chat, 0, 0)).2.1 i = some (gen r) := by
    intro i r h
    rw [chatUUIDAt, hsome i r h]
    rcases hg : chat.get? i with _ | m
    · exfalso
      obtain ⟨e, he, hei⟩ := hmemIdx i r h
      have := (dupEvents_spec chat e he).1
      rw [hei, chatUUIDAt, hg] at this
      cases this
    · simp [setMsgUUID, msgUUID]
  rw [hflat]
  refine ⟨hf, ?_, ?_, ?_⟩
  · intro k
    rw [hstore k]
    rfl
  · intro i j u hi hj
    rcases hri : rankIn (dupEvents chat) i with _ | r
    · rcases hrj : rankIn (dupEvents chat) j with _ | r'
      · -- both kept their original identifiers
        rw [hprojNone i hri] at hi
        rw [hprojNone j hrj] at hj
        have hu : u ≠ "" := by
          intro hu0
          exact hne i (hu0 ▸ hi)
        rcases Nat.lt_trichotomy i j with hij | hij | hij
        · exfalso
          have hmem := later_occurrence_repaired chat hu hi hj hij
          rw [rankIn_eq_none_iff] at hrj
          exact hrj (List.mem_map.mpr ⟨(u, j), hmem, rfl⟩)
        · exact hij
        · exfalso
          have hmem := later_occurrence_repaired chat hu hj hi hij
          rw [rankIn_eq_none_iff] at hri
          exact hri (List.mem_map.mpr ⟨(u, i), hmem, rfl⟩)
      · exfalso
        rw [hprojNone i hri] at hi
        rw [hprojSome j r' hrj] at hj
        have : u = gen r' := Option.some.inj hj.symm
        exact hfresh r' i (this ▸ hi)
    · rcases hrj : rankIn (dupEvents chat) j with _ | r'
      · exfalso
        rw [hprojSome i r hri] at hi
        rw [hprojNone j hrj] at hj
        have : u = gen r := Option.some.inj hi.symm
        exact hfresh r j (this ▸ hj)
      · rw [hprojSome i r hri] at hi
        rw [hprojSome j r' hrj] at hj
        have hur : u = gen r := Option.some.inj hi.symm
        have hur' : u = gen r' := Option.some.inj hj.symm
        have hrr : r = r' := hinj r r' (hur.symm.trans hur')
        subst hrr
        obtain ⟨hlt2, hget⟩ := rankIn_eq_some_get (dupEvents chat) i r hri
        obtain ⟨hlt3, hget'⟩ := rankIn_eq_some_get (dupEvents chat) j r hrj
        rw [← hget, ← hget']
      -- the two Fin indices are equal, so the gets coincide
  · intro j u hj hfirst
    have hnotrep := first_occurrence_not_repaired chat hj hfirst
    have hrj : rankIn (dupEvents chat) j = none := by
      rw [rankIn_eq_none_iff]
      intro hmem
      rw [List.mem_map] at hmem
      obtain ⟨e, he, hej⟩ := hmem
      exact hnotrep e he hej
    rw [hprojNone j hrj]
    exact hj

/-- A message carrying uuid `u` and membership tag `"s"` (C2 witness). -/
def mkTagged (u : String) : Message :=
  { extra := some { scene_fold_uuid := some u, scene_fold_scenes := some ["s"] } }

/-- The chat of the C2 witness: two duplicates of `"u"` (both tagged with
scene `"s"`) and a distinct message `"b"`. -/
def chatW : List Message := [mkTagged "u", mkTagged "u", mkMsg "b"]

/-- The scene of the C2 witness. -/
def sceneUB : Scene := { id := "s", sourceMessageUUIDs := ["u", "b"] }

/-- The generator of the C2 witness: every value has length at least two,
so the values are pairwise distinct and collide with no one-character
identifier in `chatW`. -/
def genW (n : Nat) : String := String.mk (List.replicate (n + 2) (Char.ofNat 102))

theorem genW_len (n : Nat) : (genW n).data.length = n + 2 := by
  simp [genW]

/-- C2 witness: the amended theorem instantiated on `chatW`. -/
theorem c2_witness :
    (reconcileDuplicatedMessages [("s", sceneUB)] chatW genW).2.2 =
      (dupEvents chatW).length ∧
    (∀ k, storeGet (reconcileDuplicatedMessages [("s", sceneUB)] chatW genW).1 k =
      (storeGet [("s", sceneUB)] k).map (fun s =>
        { s with sourceMessageUUIDs := (applyDupRepairs s.sourceMessageUUIDs (sceneDupEvents chatW genW k)) })) ∧
    UUIDsInjective (reconcileDuplicatedMessages [("s", sceneUB)] chatW genW).2.1 ∧
    (∀ j u, chatUUIDAt chatW j = some u →
      (∀ k0, k0 < j → chatUUIDAt chatW k0 ≠ some u) →
      chatUUIDAt (reconcileDuplicatedMessages [("s", sceneUB)] chatW genW).2.1 j = some u) := by
  refine c2_duplication_reconciliation [("s", sceneUB)] chatW genW ?_ ?_ ?_
  · intro n i h
    rcases i with _ | _ | _ | i
    · have h0 : chatUUIDAt chatW 0 = some "u" := rfl
      rw [h0] at h
      have hu := Option.some.inj h
      have h1 : ("u" : String).data.length = 1 := rfl
      rw [hu, genW_len] at h1
      omega
    · have h0 : chatUUIDAt chatW 1 = some "u" := rfl
      rw [h0] at h
      have hu := Option.some.inj h
      have h1 : ("u" : String).data.length = 1 := rfl
      rw [hu, genW_len] at h1
      omega
    · have h0 : chatUUIDAt chatW 2 = some "b" := rfl
      rw [h0] at h
      have hu := Option.some.inj h
      have h1 : ("b" : String).data.length = 1 := rfl
      rw [hu, genW_len] at h1
      omega
    · have h0 : chatUUIDAt chatW (i + 3) = none := rfl
      rw [h0] at h
      cases h
  · intro m n h
    have h2 := congrArg (fun s : String => s.data.length) h
    simp only [genW_len] at h2
    omega
  · intro i h
    rcases i with _ | _ | _ | i
    · exact absurd h (by decide)
    · exact absurd h (by decide)
    · exact absurd h (by decide)
    · have h0 : chatUUIDAt chatW (i + 3) = none := rfl
      rw [h0] at h
      cases h

/-! ## C1 / C6 — deletion reconciliation: safety and idempotence -/

theorem storeGet_storeErase (st : Store) (key q : String) :
    storeGet (storeErase st key) q = if key = q then none else storeGet st q := by
  induction st with
  | nil => by_cases h : key = q <;> simp [storeErase, storeGet, h]
  | cons p rest ih =>
    obtain ⟨k, w⟩ := p
    by_cases hk : k = key
    · subst hk
      by_cases hq : k = q
      · subst hq
        simp [storeErase, storeGet, ih]
      · rw [show storeErase ((k, w) :: rest) k = storeErase rest k from by
          simp [storeErase]]
        rw [ih]
        by_cases hkq : k = q
        · exact absurd hkq hq
        · rw [if_neg hkq, if_neg hkq, storeGet, if_neg hkq]
    · rw [show storeErase ((k, w) :: rest) key = (k, w) :: storeErase rest key from by
        simp [storeErase, hk]]
      by_cases hq : k = q
      · subst hq
        rw [if_neg (fun h => hk h.symm), storeGet, if_pos rfl, storeGet, if_pos rfl]
      · rw [storeGet, if_neg hq, ih, storeGet, if_neg hq]

/-- Un-hiding a message does not change any stable identifier. -/
theorem chatUUIDAt_unhideAt (chat : List Message) (idx i : Nat) :
    chatUUIDAt (unhideAt chat idx) i = chatUUIDAt chat i := by
  rw [unhideAt]
  split
  · rfl
  next msg hg =>
    have hlt : idx < chat.length := by
      by_contra hc
      rw [List.get?_eq_none.mpr (by omega)] at hg
      cases hg
    by_cases hi : idx = i
    · subst hi
      rw [chatUUIDAt, chatUUIDAt, getq_set_eq _ _ _ hlt, hg]
      simp [msgUUID]
    · rw [chatUUIDAt, chatUUIDAt, getq_set_ne _ _ _ _ hi]

/-- Clearing a summary message's scene tags does not change any stable
identifier. -/
theorem chatUUIDAt_clearSummaryTagsAt (chat : List Message) (idx i : Nat) :
    chatUUIDAt (clearSummaryTagsAt chat idx) i = chatUUIDAt chat i := by
  rw [clearSummaryTagsAt]
  split
  · rfl
  next msg hg =>
    split
    · rfl
    next e he =>
      have hlt : idx < chat.length := by
        by_contra hc
        rw [List.get?_eq_none.mpr (by omega)] at hg
        cases hg
      by_cases hi : idx = i
      · subst hi
        rw [chatUUIDAt, chatUUIDAt, getq_set_eq _ _ _ hlt, hg]
        simp [msgUUID, he]
      · rw [chatUUIDAt, chatUUIDAt, getq_set_ne _ _ _ _ hi]

/-- The un-hide loop of the summary-lost branch does not change any
stable identifier. -/
theorem chatUUIDAt_unhideFold (uuidIndex : UUIDMap) (l : List String) :
    ∀ (chat : List Message) (i : Nat),
    chatUUIDAt (l.foldl (fun ch uuid =>
      if findMessageIndexByUUID ch uuid (some uuidIndex) ≠ -1
      then unhideAt ch (findMessageIndexByUUID ch uuid (some uuidIndex)).toNat
      else ch) chat) i = chatUUIDAt chat i := by
  induction l with
  | nil =>
    intro chat i
    rfl
  | cons x xs ih =>
    intro chat i
    rw [List.foldl_cons, ih]
    show chatUUIDAt
      (if findMessageIndexByUUID chat x (some uuidIndex) ≠ -1
       then unhideAt chat (findMessageIndexByUUID chat x (some uuidIndex)).toNat
       else chat) i = chatUUIDAt chat i
    split
    · exact chatUUIDAt_unhideAt _ _ _
    · rfl

/-- A resolution returns `-1`, with or against any cache, exactly when no
live message carries the identifier. -/
theorem find_neg_iff (chat : List Message) (u : String) (c : Option UUIDMap) :
    findMessageIndexByUUID chat u c = -1 ↔ ∀ p, chatUUIDAt chat p ≠ some u := by
  rw [findMessageIndexByUUID.eq_def]
  split
  · split
    · split
      · next hval =>
        constructor
        · intro h
          simp at h
        · intro h
          exact absurd hval (h _)
      · exact linearScan_neg_iff chat u
    · exact linearScan_neg_iff chat u
  · exact linearScan_neg_iff chat u

/-- One pass of the per-scene loop, seen from the store: the entry's key
is either erased (when no source survived the filter) or overwritten with
a scene whose sources are exactly the surviving ones (nonempty), whose
summary identifier, when present, resolved at processing time; all other
keys are untouched. -/
theorem reconcileStep_store_self (uuidIndex : UUIDMap)
    (acc : Store × List Message × ReconcileResult) (entry : String × Scene) :
    ((reconcileStep uuidIndex acc entry).1 = storeErase acc.1 entry.1 ∧
      (entry.2.sourceMessageUUIDs.filter
        (fun uuid => findMessageIndexByUUID acc.2.1 uuid (some uuidIndex) ≠ -1)).length = 0) ∨
    (∃ s, (reconcileStep uuidIndex acc entry).1 = storeSet acc.1 entry.1 s ∧
      s.sourceMessageUUIDs = entry.2.sourceMessageUUIDs.filter
        (fun uuid => findMessageIndexByUUID acc.2.1 uuid (some uuidIndex) ≠ -1) ∧
      s.sourceMessageUUIDs.length ≠ 0 ∧
      (∀ su, s.summaryMessageUUID = some su →
        findMessageIndexByUUID acc.2.1 su (some uuidIndex) ≠ -1)) := by
  by_cases h0 : (entry.2.sourceMessageUUIDs.filter
      (fun uuid => findMessageIndexByUUID acc.2.1 uuid (some uuidIndex) ≠ -1)).length = 0
  · refine Or.inl ⟨?_, h0⟩
    simp only [reconcileStep]
    rw [if_pos h0]
  · refine Or.inr ?_
    simp only [reconcileStep]
    rw [if_neg h0]
    by_cases hmod : ((entry.2.sourceMessageUUIDs.filter
        (fun uuid => findMessageIndexByUUID acc.2.1 uuid (some uuidIndex) ≠ -1)).length
        != entry.2.sourceMessageUUIDs.length) = true
    · rw [if_pos hmod]
      split
      · next su heq =>
        split
        · -- summary lost: the stored scene's summary is reset to `none`
          refine ⟨_, rfl, by simp, by simpa using h0, ?_⟩
          intro su0 hsu0
          simp at hsu0
        · next hidx =>
          refine ⟨_, rfl, by simp, by simpa using h0, ?_⟩
          intro su0 hsu0
          simp at hsu0
          rw [heq] at hsu0
          have : su = su0 := Option.some.inj hsu0
          exact this ▸ hidx
      · refine ⟨_, rfl, by simp, by simpa using h0, ?_⟩
        next heq =>
        intro su0 hsu0
        simp at hsu0
        rw [heq] at hsu0
        cases hsu0
    · rw [if_neg hmod]
      simp at hmod
      have hfil : entry.2.sourceMessageUUIDs.filter
          (fun uuid => findMessageIndexByUUID acc.2.1 uuid (some uuidIndex) ≠ -1)
          = entry.2.sourceMessageUUIDs :=
        List.filter_eq_self.mpr (fun a ha => decide_eq_true (hmod a ha))
      split
      · next su heq =>
        split
        · refine ⟨_, rfl, hfil.symm, ?_, ?_⟩
          · intro h
            apply h0
            rw [hfil]
            exact h
          · intro su0 hsu0
            simp at hsu0
        · next hidx =>
          refine ⟨_, rfl, hfil.symm, ?_, ?_⟩
          · intro h
            apply h0
            rw [hfil]
            exact h
          · intro su0 hsu0
            rw [heq] at hsu0
            have : su = su0 := Option.some.inj hsu0
            exact this ▸ hidx
      · next heq =>
        refine ⟨_, rfl, hfil.symm, ?_, ?_⟩
        · intro h
          apply h0
          rw [hfil]
          exact h
        · intro su0 hsu0
          rw [heq] at hsu0
          cases hsu0

/-- One pass of the per-scene loop does not change any stable identifier
in the chat. -/
theorem reconcileStep_chat_proj (uuidIndex : UUIDMap)
    (acc : Store × List Message × ReconcileResult) (entry : String × Scene) (i : Nat) :
    chatUUIDAt (reconcileStep uuidIndex acc entry).2.1 i = chatUUIDAt acc.2.1 i := by
  simp only [reconcileStep]
  repeat' split
  all_goals first
    | rfl
    | apply chatUUIDAt_clearSummaryTagsAt
    | apply chatUUIDAt_unhideFold

/-- The per-scene loop over a suffix of entries with distinct keys:
stable identifiers are preserved, unprocessed keys are untouched, and
every processed key that still maps to a scene maps to one with a
nonempty source list of resolvable identifiers and a summary identifier
that is absent or resolvable (resolvability stated against `chat0`, the
chat whose identifier projection the accumulator carries). -/
theorem reconcile_fold_clean (uuidIndex : UUIDMap) (chat0 : List Message) :
    ∀ (E : List (String × Scene)) (acc : Store × List Message × ReconcileResult),
    (E.map Prod.fst).Nodup →
    (∀ i, chatUUIDAt acc.2.1 i = chatUUIDAt chat0 i) →
    (∀ i, chatUUIDAt (E.foldl (reconcileStep uuidIndex) acc).2.1 i = chatUUIDAt chat0 i) ∧
    (∀ q, q ∉ E.map Prod.fst →
      storeGet (E.foldl (reconcileStep uuidIndex) acc).1 q = storeGet acc.1 q) ∧
    (∀ e ∈ E, ∀ s, storeGet (E.foldl (reconcileStep uuidIndex) acc).1 e.1 = some s →
      s.sourceMessageUUIDs ≠ [] ∧
      (∀ u ∈ s.sourceMessageUUIDs, ∃ p, chatUUIDAt chat0 p = some u) ∧
      (∀ su, s.summaryMessageUUID = some su → ∃ p, chatUUIDAt chat0 p = some su)) := by
  intro E
  induction E with
  | nil =>
    intro acc _ hproj
    refine ⟨hproj, fun q _ => rfl, fun e he => absurd he (List.not_mem_nil e)⟩
  | cons e E ih =>
    intro acc hnd hproj
    rw [List.map_cons, List.nodup_cons] at hnd
    have hproj1 : ∀ i, chatUUIDAt (reconcileStep uuidIndex acc e).2.1 i
        = chatUUIDAt chat0 i :=
      fun i => (reconcileStep_chat_proj uuidIndex acc e i).trans (hproj i)
    obtain ⟨ihproj, ihframe, ihgood⟩ :=
      ih (reconcileStep uuidIndex acc e) hnd.2 hproj1
    rw [List.foldl_cons]
    refine ⟨ihproj, ?_, ?_⟩
    · intro q hq
      rw [List.map_cons, List.mem_cons] at hq
      push_neg at hq
      rw [ihframe q hq.2]
      rcases reconcileStep_store_self uuidIndex acc e with ⟨heq, -⟩ | ⟨s, heq, -⟩
      · rw [heq, storeGet_storeErase, if_neg (fun h => hq.1 h.symm)]
      · rw [heq, storeGet_storeSet, if_neg (fun h => hq.1 h.symm)]
    · intro e' he' s hs
      rcases List.mem_cons.mp he' with rfl | he2
      · -- the freshly processed entry: frozen by the remaining iterations
        rw [ihframe e'.1 hnd.1] at hs
        rcases reconcileStep_store_self uuidIndex acc e' with ⟨heq, -⟩ | ⟨s0, heq, hsrc, hlen, hsum⟩
        · rw [heq, storeGet_storeErase, if_pos rfl] at hs
          cases hs
        · rw [heq, storeGet_storeSet, if_pos rfl] at hs
          have hss : s0 = s := Option.some.inj hs
          subst hss
          have hresolve : ∀ u, findMessageIndexByUUID acc.2.1 u (some uuidIndex) ≠ -1 →
              ∃ p, chatUUIDAt chat0 p = some u := by
            intro u hu
            by_contra hno
            push_neg at hno
            refine hu ((find_neg_iff acc.2.1 u (some uuidIndex)).mpr ?_)
            intro p hp
            exact hno p ((hproj p).symm.trans hp)
          refine ⟨?_, ?_, ?_⟩
          · intro hnil
            apply hlen
            rw [hnil]
            rfl
          · intro u hu
            rw [hsrc] at hu
            have := (List.mem_filter.mp hu).2
            exact hresolve u (of_decide_eq_true this)
          · intro su hsu
            exact hresolve su (hsum su hsu)
      · exact ihgood e' he2 s hs

/-- C1: for every store with distinct scene ids, after
`reconcileScenesAfterDeletion` every scene still present in the store has
a nonempty `sourceMessageUUIDs` list all of whose entries resolve to a
live message of the resulting chat (`findMessageIndexByUUID` does not
return `-1`); in particular a scene whose recomputed source list came up
empty is absent from the store. -/
theorem c1_deletion_safety (store : Store) (chat : List Message)
    (hkeys : (store.map Prod.fst).Nodup) :
    ∀ k s, storeGet (reconcileScenesAfterDeletion store chat).1 k = some s →
      s.sourceMessageUUIDs ≠ [] ∧
      ∀ u ∈ s.sourceMessageUUIDs,
        findMessageIndexByUUID (reconcileScenesAfterDeletion store chat).2.1 u none ≠ -1 := by
  intro k s hs
  have hdef : reconcileScenesAfterDeletion store chat
      = store.foldl (reconcileStep (buildUUIDIndex chat)) (store, chat, {}) := rfl
  rw [hdef] at hs
  obtain ⟨hproj, hframe, hgood⟩ :=
    reconcile_fold_clean (buildUUIDIndex chat) chat store (store, chat, {})
      hkeys (fun _ => rfl)
  by_cases hk : k ∈ store.map Prod.fst
  · obtain ⟨e, he, hek⟩ := List.mem_map.mp hk
    obtain ⟨hnil, hres, -⟩ := hgood e he s (by rw [hek]; exact hs)
    refine ⟨hnil, ?_⟩
    intro u hu hfind
    rw [hdef, find_neg_iff] at hfind
    obtain ⟨p, hp⟩ := hres u hu
    exact hfind p ((hproj p).trans hp)
  · exfalso
    rw [hframe k hk] at hs
    exact hk (List.mem_map.mpr ⟨(k, s), storeGet_mem hs, rfl⟩)

theorem storeSet_keys_nodup (st : Store) (k : String) (v : Scene)
    (h : (st.map Prod.fst).Nodup) : ((storeSet st k v).map Prod.fst).Nodup := by
  induction st with
  | nil => simp [storeSet]
  | cons p rest ih =>
    obtain ⟨k0, w⟩ := p
    rw [List.map_cons, List.nodup_cons] at h
    by_cases hk : k0 = k
    · subst hk
      rw [show storeSet ((k0, w) :: rest) k0 v = (k0, v) :: rest from by simp [storeSet]]
      rw [List.map_cons, List.nodup_cons]
      exact ⟨h.1, h.2⟩
    · rw [show storeSet ((k0, w) :: rest) k v = (k0, w) :: storeSet rest k v from by
        simp [storeSet, hk]]
      rw [List.map_cons, List.nodup_cons]
      refine ⟨?_, ih h.2⟩
      intro hmem
      obtain ⟨e, he, hef⟩ := List.mem_map.mp hmem
      rcases storeSet_mem he with rfl | he2
      · exact hk hef.symm
      · exact h.1 (List.mem_map.mpr ⟨e, he2, hef⟩)

theorem storeErase_keys_sublist (st : Store) (k : String) :
    ((storeErase st k).map Prod.fst).Sublist (st.map Prod.fst) := by
  induction st with
  | nil => simp [storeErase]
  | cons p rest ih =>
    obtain ⟨k0, w⟩ := p
    by_cases hk : k0 = k
    · rw [show storeErase ((k0, w) :: rest) k = storeErase rest k from by
        simp [storeErase, hk]]
      rw [List.map_cons]
      exact List.Sublist.cons _ ih
    · rw [show storeErase ((k0, w) :: rest) k = (k0, w) :: storeErase rest k from by
        simp [storeErase, hk]]
      rw [List.map_cons, List.map_cons]
      exact List.Sublist.cons₂ _ ih

/-- Scene-id distinctness survives the full reconciliation pass. -/
theorem reconcile_fold_keys_nodup (uuidIndex : UUIDMap) :
    ∀ (E : List (String × Scene)) (acc : Store × List Message × ReconcileResult),
    (acc.1.map Prod.fst).Nodup →
    (((E.foldl (reconcileStep uuidIndex) acc).1).map Prod.fst).Nodup := by
  intro E
  induction E with
  | nil =>
    intro acc h
    exact h
  | cons e E ih =>
    intro acc h
    rw [List.foldl_cons]
    refine ih _ ?_
    rcases reconcileStep_store_self uuidIndex acc e with ⟨heq, -⟩ | ⟨s, heq, -⟩
    · rw [heq]
      exact h.sublist (storeErase_keys_sublist acc.1 e.1)
    · rw [heq]
      exact storeSet_keys_nodup acc.1 e.1 s h

/-- In a store with distinct keys, every entry is found by lookup. -/
theorem storeGet_of_mem_nodup {st : Store} {k : String} {s : Scene}
    (hnd : (st.map Prod.fst).Nodup) (h : (k, s) ∈ st) : storeGet st k = some s := by
  induction st with
  | nil => cases h
  | cons p rest ih =>
    obtain ⟨k0, w⟩ := p
    rw [List.map_cons, List.nodup_cons] at hnd
    rcases List.mem_cons.mp h with heq | h2
    · cases heq
      rw [storeGet, if_pos rfl]
    · by_cases hk : k0 = k
      · subst hk
        exact absurd (List.mem_map.mpr ⟨(k0, s), h2, rfl⟩) hnd.1
      · rw [storeGet, if_neg hk]
        exact ih hnd.2 h2

/-- Every scene left in the store after a reconciliation pass has a
nonempty source list whose entries all resolve in the resulting chat, and
a summary identifier that is absent or resolves in the resulting chat. -/
theorem reconcile_result_clean (store : Store) (chat : List Message)
    (hkeys : (store.map Prod.fst).Nodup) :
    ∀ k s, storeGet (reconcileScenesAfterDeletion store chat).1 k = some s →
      s.sourceMessageUUIDs ≠ [] ∧
      (∀ u ∈ s.sourceMessageUUIDs, ∃ p,
        chatUUIDAt (reconcileScenesAfterDeletion store chat).2.1 p = some u) ∧
      (∀ su, s.summaryMessageUUID = some su → ∃ p,
        chatUUIDAt (reconcileScenesAfterDeletion store chat).2.1 p = some su) := by
  intro k s hs
  have hdef : reconcileScenesAfterDeletion store chat
      = store.foldl (reconcileStep (buildUUIDIndex chat)) (store, chat, {}) := rfl
  rw [hdef] at hs ⊢
  obtain ⟨hproj, hframe, hgood⟩ :=
    reconcile_fold_clean (buildUUIDIndex chat) chat store (store, chat, {})
      hkeys (fun _ => rfl)
  by_cases hk : k ∈ store.map Prod.fst
  · obtain ⟨e, he, hek⟩ := List.mem_map.mp hk
    obtain ⟨hnil, hres, hsum⟩ := hgood e he s (by rw [hek]; exact hs)
    refine ⟨hnil, ?_, ?_⟩
    · intro u hu
      obtain ⟨p, hp⟩ := hres u hu
      exact ⟨p, (hproj p).trans hp⟩
    · intro su hsu
      obtain ⟨p, hp⟩ := hsum su hsu
      exact ⟨p, (hproj p).trans hp⟩
  · exfalso
    rw [hframe k hk] at hs
    exact hk (List.mem_map.mpr ⟨(k, s), storeGet_mem hs, rfl⟩)

/-- On a store entry whose scene already satisfies the post-pass
condition, one pass of the per-scene loop is the identity. -/
theorem reconcileStep_fixpoint (uuidIndex : UUIDMap)
    (acc : Store × List Message × ReconcileResult) (entry : String × Scene)
    (hget : storeGet acc.1 entry.1 = some entry.2)
    (hne : entry.2.sourceMessageUUIDs ≠ [])
    (hres : ∀ u ∈ entry.2.sourceMessageUUIDs, ∃ p, chatUUIDAt acc.2.1 p = some u)
    (hsum : ∀ su, entry.2.summaryMessageUUID = some su →
      ∃ p, chatUUIDAt acc.2.1 p = some su) :
    reconcileStep uuidIndex acc entry = acc := by
  have hfil : entry.2.sourceMessageUUIDs.filter
      (fun uuid => findMessageIndexByUUID acc.2.1 uuid (some uuidIndex) ≠ -1)
      = entry.2.sourceMessageUUIDs := by
    refine List.filter_eq_self.mpr ?_
    intro u hu
    refine decide_eq_true ?_
    intro hEq
    rw [find_neg_iff] at hEq
    obtain ⟨p, hp⟩ := hres u hu
    exact hEq p hp
  simp only [reconcileStep]
  rw [hfil]
  rw [if_neg (fun h => hne (List.length_eq_zero.mp h))]
  rw [if_neg (show ¬((entry.2.sourceMessageUUIDs.length
      != entry.2.sourceMessageUUIDs.length) = true) from by simp)]
  split
  · next su heq =>
    have hnidx : ¬(findMessageIndexByUUID acc.2.1 su (some uuidIndex) = -1) := by
      intro hEq
      rw [find_neg_iff] at hEq
      obtain ⟨p, hp⟩ := hsum su heq
      exact hEq p hp
    rw [if_neg hnidx]
    rw [if_neg (show ¬(((entry.2.sourceMessageUUIDs.length
        != entry.2.sourceMessageUUIDs.length) = true) ∧
        entry.1 ∉ acc.2.2.deletedScenes) from fun h => absurd h.1 (by simp))]
    rw [storeSet_self hget]
  · rw [if_neg (show ¬(((entry.2.sourceMessageUUIDs.length
        != entry.2.sourceMessageUUIDs.length) = true) ∧
        entry.1 ∉ acc.2.2.deletedScenes) from fun h => absurd h.1 (by simp))]
    rw [storeSet_self hget]

/-- A full pass over entries that already satisfy the post-pass
condition is the identity on the threaded state. -/
theorem reconcile_fold_fixpoint (uuidIndex : UUIDMap) :
    ∀ (E : List (String × Scene)) (acc : Store × List Message × ReconcileResult),
    (∀ e ∈ E, storeGet acc.1 e.1 = some e.2 ∧ e.2.sourceMessageUUIDs ≠ [] ∧
      (∀ u ∈ e.2.sourceMessageUUIDs, ∃ p, chatUUIDAt acc.2.1 p = some u) ∧
      (∀ su, e.2.summaryMessageUUID = some su →
        ∃ p, chatUUIDAt acc.2.1 p = some su)) →
    E.foldl (reconcileStep uuidIndex) acc = acc := by
  intro E
  induction E with
  | nil =>
    intro acc _
    rfl
  | cons e E ih =>
    intro acc h
    obtain ⟨hget, hne, hres, hsum⟩ := h e (List.mem_cons_self e E)
    rw [List.foldl_cons, reconcileStep_fixpoint uuidIndex acc e hget hne hres hsum]
    exact ih acc (fun e' he' => h e' (List.mem_cons_of_mem _ he'))

/-- C6: deletion reconciliation is idempotent — a second run on the
store and chat produced by a first run returns them unchanged together
with empty `deletedScenes`, `modifiedScenes` and `summaryLost` lists. -/
theorem c6_idempotent (store : Store) (chat : List Message)
    (hkeys : (store.map Prod.fst).Nodup) :
    reconcileScenesAfterDeletion (reconcileScenesAfterDeletion store chat).1
      (reconcileScenesAfterDeletion store chat).2.1
    = ((reconcileScenesAfterDeletion store chat).1,
       (reconcileScenesAfterDeletion store chat).2.1, ({} : ReconcileResult)) := by
  have hnd1 : (((reconcileScenesAfterDeletion store chat).1).map Prod.fst).Nodup := by
    have hdef : reconcileScenesAfterDeletion store chat
        = store.foldl (reconcileStep (buildUUIDIndex chat)) (store, chat, {}) := rfl
    rw [hdef]
    exact reconcile_fold_keys_nodup _ _ _ hkeys
  have hclean := reconcile_result_clean store chat hkeys
  refine reconcile_fold_fixpoint _ _ _ ?_
  intro e he
  have hget : storeGet (reconcileScenesAfterDeletion store chat).1 e.1 = some e.2 :=
    storeGet_of_mem_nodup hnd1 he
  obtain ⟨hne, hres, hsum⟩ := hclean e.1 e.2 hget
  exact ⟨hget, hne, hres, hsum⟩

/-- The scene of the C1/C6 witnesses. -/
def sceneA : Scene := { id := "sA", sourceMessageUUIDs := ["u"] }

/-- C1 witness: a store whose single scene survives reconciliation with
its one source resolving in the resulting chat. -/
theorem c1_witness :
    (([("sA", sceneA)] : Store).map Prod.fst).Nodup ∧
    storeGet (reconcileScenesAfterDeletion [("sA", sceneA)] [mkMsg "u"]).1 "sA"
      = some sceneA ∧
    (sceneA.sourceMessageUUIDs ≠ [] ∧
      ∀ u ∈ sceneA.sourceMessageUUIDs,
        findMessageIndexByUUID
          (reconcileScenesAfterDeletion [("sA", sceneA)] [mkMsg "u"]).2.1 u none ≠ -1) :=
  ⟨by decide, by decide,
    c1_deletion_safety [("sA", sceneA)] [mkMsg "u"] (by decide) "sA" sceneA (by decide)⟩

/-- A scene whose only source is gone from the chat of the C6 witness. -/
def sceneB : Scene := { id := "sB", sourceMessageUUIDs := ["x"] }

/-- C6 witness: idempotence on a concrete store and chat on which the
first run keeps one scene, trims another, and deletes a third. -/
theorem c6_witness :
    reconcileScenesAfterDeletion
      (reconcileScenesAfterDeletion
        [("sA", sceneA), ("s", sceneUB), ("sB", sceneB)] [mkMsg "u"]).1
      (reconcileScenesAfterDeletion
        [("sA", sceneA), ("s", sceneUB), ("sB", sceneB)] [mkMsg "u"]).2.1
    = ((reconcileScenesAfterDeletion
          [("sA", sceneA), ("s", sceneUB), ("sB", sceneB)] [mkMsg "u"]).1,
       (reconcileScenesAfterDeletion
          [("sA", sceneA), ("s", sceneUB), ("sB", sceneB)] [mkMsg "u"]).2.1,
       ({} : ReconcileResult)) :=
  c6_idempotent [("sA", sceneA), ("s", sceneUB), ("sB", sceneB)] [mkMsg "u"] (by decide)

/-! ## C3 — creation rejects overlapping ranges -/

theorem dedupAppend_subset (l : List String) :
    ∀ (acc : List String) (x : String), x ∈ acc →
    x ∈ l.foldl (fun a t => if t ∈ a then a else a ++ [t]) acc := by
  induction l with
  | nil =>
    intro acc x h
    exact h
  | cons t ts ih =>
    intro acc x h
    rw [List.foldl_cons]
    refine ih _ x ?_
    split
    · exact h
    · exact List.mem_append_left _ h

theorem dedupAppend_mem (l : List String) :
    ∀ (acc : List String) (x : String), x ∈ l →
    x ∈ l.foldl (fun a t => if t ∈ a then a else a ++ [t]) acc := by
  induction l with
  | nil =>
    intro acc x h
    cases h
  | cons t ts ih =>
    intro acc x h
    rw [List.foldl_cons]
    rcases List.mem_cons.mp h with rfl | h2
    · refine dedupAppend_subset ts _ x ?_
      split
      · next hmem => exact hmem
      · exact List.mem_append_right _ (by simp)
    · exact ih _ x h2

theorem overlapFold_subset (chat : List Message) :
    ∀ (il : List Nat) (acc : List String) (x : String), x ∈ acc →
    x ∈ il.foldl (fun acc i =>
      (getMessageScenes chat i).foldl
        (fun acc1 sceneId => if sceneId ∈ acc1 then acc1 else acc1 ++ [sceneId]) acc) acc := by
  intro il
  induction il with
  | nil =>
    intro acc x h
    exact h
  | cons j js ih =>
    intro acc x h
    rw [List.foldl_cons]
    exact ih _ x (dedupAppend_subset _ _ x h)

theorem overlapFold_mem (chat : List Message) :
    ∀ (il : List Nat) (acc : List String) (i : Nat), i ∈ il →
    ∀ s, s ∈ getMessageScenes chat i →
    s ∈ il.foldl (fun acc i =>
      (getMessageScenes chat i).foldl
        (fun acc1 sceneId => if sceneId ∈ acc1 then acc1 else acc1 ++ [sceneId]) acc) acc := by
  intro il
  induction il with
  | nil =>
    intro acc i h
    cases h
  | cons j js ih =>
    intro acc i h s hs
    rw [List.foldl_cons]
    rcases List.mem_cons.mp h with rfl | h2
    · exact overlapFold_subset chat js _ s (dedupAppend_mem _ _ s hs)
    · exact ih _ i h2 s hs

/-- Any scene id tagged on a message of the queried range is collected by
`findOverlappingScenes`. -/
theorem findOverlappingScenes_mem (chat : List Message) (startIndex endIndex : Nat)
    (i : Nat) (hge : startIndex ≤ i) (hle : i ≤ endIndex)
    (s : String) (hs : s ∈ getMessageScenes chat i) :
    s ∈ findOverlappingScenes chat startIndex endIndex := by
  rw [findOverlappingScenes]
  refine overlapFold_mem chat _ [] i ?_ s hs
  rw [List.mem_range'_1]
  omega

/-- `ensureMessageUUID` returns either the message's existing (truthy)
identifier or a freshly minted one, and the returned message carries it. -/
theorem ensureMessageUUID_uuid (gen : Nat → String) (c : Nat) (m : Message) :
    (msgUUID m = some (ensureMessageUUID gen c m).2.1 ∨
      (ensureMessageUUID gen c m).2.1 = gen c) ∧
    msgUUID (ensureMessageUUID gen c m).1 = some (ensureMessageUUID gen c m).2.1 := by
  simp only [ensureMessageUUID]
  split
  · next u hu =>
    split
    · exact ⟨Or.inr rfl, by simp [msgUUID]⟩
    · refine ⟨Or.inl ?_, by simp [msgUUID]; exact hu⟩
      rcases hme : m.extra with _ | e0
      · exfalso
        rw [hme] at hu
        exact Option.noConfusion (show (none : Option String) = some u from hu)
      · rw [msgUUID, hme]
        rw [hme] at hu
        exact hu
  · exact ⟨Or.inr rfl, by simp [msgUUID]⟩

/-- One iteration of `createScene`'s loop: a missing entry is skipped;
otherwise the message at `i` is overwritten with one carrying the
collected identifier — the message's own, or a freshly minted one. -/
theorem createSceneStep_cases (sceneId : String) (gen : Nat → String)
    (chat : List Message) (uuids : List String) (c : Nat) (i : Nat) :
    (chat.get? i = none ∧
      createSceneStep sceneId gen (chat, uuids, c) i = (chat, uuids, c)) ∨
    (∃ msg2 uuid c1, i < chat.length ∧
      createSceneStep sceneId gen (chat, uuids, c) i
        = (chat.set i msg2, uuids ++ [uuid], c1) ∧
      msgUUID msg2 = some uuid ∧
      (chatUUIDAt chat i = some uuid ∨ uuid = gen c)) := by
  simp only [createSceneStep]
  split
  · next hg => exact Or.inl ⟨hg, rfl⟩
  · next msg hg =>
    have hlt : i < chat.length := by
      by_contra hc
      rw [List.get?_eq_none.mpr (by omega)] at hg
      cases hg
    rcases hE : ensureMessageUUID gen c msg with ⟨msg1, uuid, c1⟩
    have hspec := ensureMessageUUID_uuid gen c msg
    rw [hE] at hspec
    refine Or.inr ⟨_, uuid, c1, hlt, rfl, ?_, ?_⟩
    · rcases hme : msg1.extra with _ | e1
      · exfalso
        have h2 := hspec.2
        rw [msgUUID, hme] at h2
        exact Option.noConfusion (show (none : Option String) = some uuid from h2)
      · have h2 := hspec.2
        rw [msgUUID, hme] at h2
        rw [msgUUID]
        simp [hme]
        exact h2
    · rcases hspec.1 with h | h
      · left
        rw [chatUUIDAt, hg]
        exact h
      · right
        exact h

/-- The member loop of `createScene` over a duplicate-free index list:
positions off the list are untouched; every position keeps its identifier
unless it is on the list and freshly minted; and every collected
identifier is carried by a processed position of the resulting chat. -/
theorem createFold_spec (sceneId : String) (gen : Nat → String) :
    ∀ (il : List Nat), il.Nodup →
    ∀ (chat : List Message) (uuids : List String) (c : Nat),
    (∀ p, p ∉ il →
      (il.foldl (createSceneStep sceneId gen) (chat, uuids, c)).1.get? p = chat.get? p) ∧
    (∀ p, chatUUIDAt (il.foldl (createSceneStep sceneId gen) (chat, uuids, c)).1 p
        = chatUUIDAt chat p ∨
      (p ∈ il ∧ ∃ n, chatUUIDAt (il.foldl (createSceneStep sceneId gen) (chat, uuids, c)).1 p
        = some (gen n))) ∧
    (∀ u ∈ (il.foldl (createSceneStep sceneId gen) (chat, uuids, c)).2.1,
      u ∈ uuids ∨ ∃ p, p ∈ il ∧
        chatUUIDAt (il.foldl (createSceneStep sceneId gen) (chat, uuids, c)).1 p = some u) := by
  intro il
  induction il with
  | nil =>
    intro _ chat uuids c
    exact ⟨fun p _ => rfl, fun p => Or.inl rfl, fun u hu => Or.inl hu⟩
  | cons i il ih =>
    intro hnd chat uuids c
    rw [List.nodup_cons] at hnd
    rcases createSceneStep_cases sceneId gen chat uuids c i with
      ⟨hg, heq⟩ | ⟨msg2, uuid, c1, hlt, heq, hmu, hor⟩
    · simp only [List.foldl_cons, heq]
      obtain ⟨ih1, ih2, ih3⟩ := ih hnd.2 chat uuids c
      refine ⟨?_, ?_, ?_⟩
      · intro p hp
        exact ih1 p (fun h => hp (List.mem_cons_of_mem _ h))
      · intro p
        exact (ih2 p).imp id (fun h => ⟨List.mem_cons_of_mem _ h.1, h.2⟩)
      · intro u hu
        exact (ih3 u hu).imp id (fun ⟨p, h1, h2⟩ => ⟨p, List.mem_cons_of_mem _ h1, h2⟩)
    · simp only [List.foldl_cons, heq]
      obtain ⟨ih1, ih2, ih3⟩ := ih hnd.2 (chat.set i msg2) (uuids ++ [uuid]) c1
      have hresI : chatUUIDAt
          (il.foldl (createSceneStep sceneId gen)
            (chat.set i msg2, uuids ++ [uuid], c1)).1 i = some uuid := by
        rw [chatUUIDAt, ih1 i hnd.1, getq_set_eq _ _ _ hlt]
        exact hmu
      refine ⟨?_, ?_, ?_⟩
      · intro p hp
        rw [List.mem_cons] at hp
        push_neg at hp
        rw [ih1 p hp.2]
        exact getq_set_ne chat i p msg2 (fun hh => hp.1 hh.symm)
      · intro p
        by_cases hpi : p = i
        · subst hpi
          rcases hor with h | h
          · left
            rw [hresI, h]
          · right
            exact ⟨List.mem_cons_self p il, c, by rw [hresI, h]⟩
        · rcases ih2 p with h | h
          · left
            rw [h, chatUUIDAt, getq_set_ne _ _ _ _ (fun hh => hpi hh.symm)]
            rfl
          · right
            exact ⟨List.mem_cons_of_mem _ h.1, h.2⟩
      · intro u hu
        rcases ih3 u hu with h | ⟨p, h1, h2⟩
        · rcases List.mem_append.mp h with h2 | h2
          · exact Or.inl h2
          · right
            refine ⟨i, List.mem_cons_self i il, ?_⟩
            rw [List.mem_singleton] at h2
            rw [h2, hresI]
        · exact Or.inr ⟨p, List.mem_cons_of_mem _ h1, h2⟩

/-- No chat position is resolved by the sources of two distinct live
scenes (the pairwise-disjoint-resolved-ranges invariant, P1). -/
def ScenesDisjoint (store : Store) (chat : List Message) : Prop :=
  ∀ k1 s1 k2 s2 u1 u2 p,
    storeGet store k1 = some s1 → storeGet store k2 = some s2 →
    u1 ∈ s1.sourceMessageUUIDs → u2 ∈ s2.sourceMessageUUIDs →
    chatUUIDAt chat p = some u1 → chatUUIDAt chat p = some u2 → k1 = k2

/-- C3: with distinct live identifiers, a generator fresh for the chat,
the stored sources and the store keys, and scene-membership tags
consistent with the stored sources, the `/scene-create` core rejects any
(clamped, in-bounds) range containing a message tagged by a scene —
leaving the store and the chat untouched — and in every case the
pairwise-disjointness of the live scenes' resolved positions is
preserved. -/
theorem c3_creation_no_overlap (store : Store) (chat : List Message)
    (start0 end0 : Nat) (gen : Nat → String) (c : Nat)
    (customPrompt : Option String) (now : Nat)
    (Hinj : UUIDsInjective chat)
    (HfreshChat : ∀ n i, chatUUIDAt chat i ≠ some (gen n))
    (HfreshSrc : ∀ n k s, storeGet store k = some s → gen n ∉ s.sourceMessageUUIDs)
    (Htags : ∀ k s u p, storeGet store k = some s → u ∈ s.sourceMessageUUIDs →
      chatUUIDAt chat p = some u → k ∈ getMessageScenes chat p)
    (Hdisj : ScenesDisjoint store chat) :
    (∀ i k, min start0 end0 ≤ i → i ≤ max start0 end0 →
      max start0 end0 < chat.length →
      k ∈ getMessageScenes chat i →
      slashSceneCreate store chat start0 end0 gen c customPrompt now
        = (store, chat, .rejectedOverlap, c)) ∧
    ScenesDisjoint (slashSceneCreate store chat start0 end0 gen c customPrompt now).1
      (slashSceneCreate store chat start0 end0 gen c customPrompt now).2.1 := by
  constructor
  · intro i k h1 h2 h3 hk
    simp only [slashSceneCreate]
    rw [if_neg (by omega : ¬ chat.length ≤ max start0 end0)]
    rw [if_pos (List.ne_nil_of_mem
      (findOverlappingScenes_mem chat _ _ i h1 h2 k hk))]
  · by_cases hlen : chat.length ≤ max start0 end0
    · have hstep : slashSceneCreate store chat start0 end0 gen c customPrompt now
          = (store, chat, .rejectedRange, c) := by
        simp only [slashSceneCreate]
        rw [if_pos hlen]
      rw [hstep]
      exact Hdisj
    · by_cases hov : findOverlappingScenes chat (min start0 end0) (max start0 end0) ≠ []
      · have hstep : slashSceneCreate store chat start0 end0 gen c customPrompt now
            = (store, chat, .rejectedOverlap, c) := by
          simp only [slashSceneCreate]
          rw [if_neg hlen, if_pos hov]
        rw [hstep]
        exact Hdisj
      · have hstep : slashSceneCreate store chat start0 end0 gen c customPrompt now
            = ((createScene store chat (min start0 end0) (max start0 end0)
                  gen c customPrompt now).1,
               (createScene store chat (min start0 end0) (max start0 end0)
                  gen c customPrompt now).2.1,
               .created (createScene store chat (min start0 end0) (max start0 end0)
                  gen c customPrompt now).2.2.1.id,
               (createScene store chat (min start0 end0) (max start0 end0)
                  gen c customPrompt now).2.2.2) := by
          simp only [slashSceneCreate]
          rw [if_neg hlen, if_neg hov]
        rw [hstep]
        obtain ⟨F1, F2, F3⟩ := createFold_spec (gen c) gen
          (List.range' (min start0 end0) (max start0 end0 + 1 - min start0 end0))
          (by simp [List.nodup_range']) chat [] (c + 1)
        have hfold : (createScene store chat (min start0 end0) (max start0 end0)
              gen c customPrompt now).2.1
            = ((List.range' (min start0 end0) (max start0 end0 + 1 - min start0 end0)).foldl
                (createSceneStep (gen c) gen) (chat, [], c + 1)).1 := rfl
        intro k1 s1 k2 s2 u1 u2 p hk1 hk2 hu1 hu2 hp1 hp2
        rw [show (createScene store chat (min start0 end0) (max start0 end0)
            gen c customPrompt now).1
          = storeSet store (gen c)
              (createScene store chat (min start0 end0) (max start0 end0)
                gen c customPrompt now).2.2.1 from rfl] at hk1 hk2
        rw [storeGet_storeSet] at hk1 hk2
        -- each claimed position of the new scene lies inside the range
        have hnew : ∀ u q, u ∈ (createScene store chat (min start0 end0) (max start0 end0)
              gen c customPrompt now).2.2.1.sourceMessageUUIDs →
            chatUUIDAt (createScene store chat (min start0 end0) (max start0 end0)
              gen c customPrompt now).2.1 q = some u →
            q ∈ List.range' (min start0 end0) (max start0 end0 + 1 - min start0 end0) := by
          intro u q hu hq
          rw [hfold] at hq
          rcases F3 u hu with h | ⟨q0, hq0, hq0u⟩
          · cases h
          by_contra hqout
          rcases F2 q with hqc | ⟨hqin, -⟩
          · rw [hqc] at hq
            rcases F2 q0 with hq0c | ⟨-, n, hq0n⟩
            · rw [hq0c] at hq0u
              exact hqout (Hinj q q0 u hq hq0u ▸ hq0)
            · rw [hq0n] at hq0u
              have : u = gen n := Option.some.inj hq0u.symm
              exact HfreshChat n q (this ▸ hq)
          · exact hqout hqin
        -- an old scene claims no position inside the range
        have hold : ∀ k s u q, storeGet store k = some s → u ∈ s.sourceMessageUUIDs →
            chatUUIDAt (createScene store chat (min start0 end0) (max start0 end0)
              gen c customPrompt now).2.1 q = some u →
            chatUUIDAt chat q = some u ∧
            q ∉ List.range' (min start0 end0) (max start0 end0 + 1 - min start0 end0) := by
          intro k s u q hks hus hq
          rw [hfold] at hq
          rcases F2 q with hqc | ⟨hqin, n, hqn⟩
          · rw [hqc] at hq
            refine ⟨hq, ?_⟩
            intro hqin
            have hkmem := Htags k s u q hks hus hq
            refine hov (List.ne_nil_of_mem
              (findOverlappingScenes_mem chat _ _ q ?_ ?_ k hkmem)) <;>
              · rw [List.mem_range'_1] at hqin
                omega
          · exfalso
            rw [hqn] at hq
            have : u = gen n := Option.some.inj hq.symm
            exact HfreshSrc n k s hks (this ▸ hus)
        split at hk1
        · split at hk2
          · next hgc1 hgc2 => exact hgc1.symm.trans hgc2
          · next hgc1 hne2 =>
            exfalso
            have hs1 := Option.some.inj hk1
            obtain ⟨hq2, hq2out⟩ := hold k2 s2 u2 p hk2 hu2 hp2
            exact hq2out (hnew u1 p (hs1 ▸ hu1) hp1)
        · split at hk2
          · next hne1 hgc2 =>
            exfalso
            have hs2 := Option.some.inj hk2
            obtain ⟨hq1, hq1out⟩ := hold k1 s1 u1 p hk1 hu1 hp1
            exact hq1out (hnew u2 p (hs2 ▸ hu2) hp2)
          · obtain ⟨hq1, -⟩ := hold k1 s1 u1 p hk1 hu1 hp1
            obtain ⟨hq2, -⟩ := hold k2 s2 u2 p hk2 hu2 hp2
            exact Hdisj k1 s1 k2 s2 u1 u2 p hk1 hk2 hu1 hu2 hq1 hq2

/-- The chat message of the C3 witness: identifier `"u"`, tagged as a
member of scene `"sA"`. -/
def msgA : Message :=
  { extra := some { scene_fold_uuid := some "u", scene_fold_scenes := some ["sA"] } }

/-- C3 witness: the theorem instantiated on a one-message chat whose
message belongs to the one live scene. -/
theorem c3_witness :
    (∀ i k, min 0 0 ≤ i → i ≤ max 0 0 →
      max 0 0 < ([msgA] : List Message).length →
      k ∈ getMessageScenes [msgA] i →
      slashSceneCreate [("sA", sceneA)] [msgA] 0 0 genW 0 none 0
        = ([("sA", sceneA)], [msgA], .rejectedOverlap, 0)) ∧
    ScenesDisjoint (slashSceneCreate [("sA", sceneA)] [msgA] 0 0 genW 0 none 0).1
      (slashSceneCreate [("sA", sceneA)] [msgA] 0 0 genW 0 none 0).2.1 :=
  c3_creation_no_overlap [("sA", sceneA)] [msgA] 0 0 genW 0 none 0
    (by
      intro i j u hi hj
      rcases i with _ | i
      · rcases j with _ | j
        · rfl
        · rw [show chatUUIDAt [msgA] (j + 1) = none from rfl] at hj
          cases hj
      · rw [show chatUUIDAt [msgA] (i + 1) = none from rfl] at hi
        cases hi)
    (by
      intro n i h
      rcases i with _ | i
      · rw [show chatUUIDAt [msgA] 0 = some "u" from rfl] at h
        have hu := Option.some.inj h
        have h1 : ("u" : String).data.length = 1 := rfl
        rw [hu, genW_len] at h1
        omega
      · rw [show chatUUIDAt [msgA] (i + 1) = none from rfl] at h
        cases h)
    (by
      intro n k s hk hmem
      have hs : s = sceneA := by
        rw [storeGet] at hk
        split at hk
        · exact (Option.some.inj hk).symm
        · rw [storeGet] at hk
          cases hk
      subst hs
      rw [show sceneA.sourceMessageUUIDs = ["u"] from rfl, List.mem_singleton] at hmem
      have h1 : ("u" : String).data.length = 1 := rfl
      rw [← hmem, genW_len] at h1
      omega)
    (by
      intro k s u p hk hu hp
      have hk1 : k = "sA" := by
        rw [storeGet] at hk
        split at hk
        · next heq => exact heq.symm
        · rw [storeGet] at hk
          cases hk
      subst hk1
      rcases p with _ | p
      · rw [show getMessageScenes [msgA] 0 = ["sA"] from rfl]
        exact List.mem_singleton.mpr rfl
      · rw [show chatUUIDAt [msgA] (p + 1) = none from rfl] at hp
        cases hp)
    (by
      intro k1 s1 k2 s2 u1 u2 p hk1 hk2 h1 h2 h3 h4
      have e1 : k1 = "sA" := by
        rw [storeGet] at hk1
        split at hk1
        · next heq => exact heq.symm
        · rw [storeGet] at hk1
          cases hk1
      have e2 : k2 = "sA" := by
        rw [storeGet] at hk2
        split at hk2
        · next heq => exact heq.symm
        · rw [storeGet] at hk2
          cases hk2
      rw [e1, e2])

/-! ## C8 / C9 — the summarization queue -/

/-- The C8 scenario: enqueue three scenes (a fresh batch), start
processing (the first becomes active and enters `summarizing`), call
`cancelAll`, then let the aborted worker unwind, the queue finish the
active slot, and the processing loop observe the empty pending list. -/
def c8Run (q0 : QueueState) (s1 s2 s3 : String) : QueueState :=
  qStartNext (qFinishActive (workerAbortUnwind (qCancelAll
    (workerBegin (qStartNext (qAddAll q0 [s1, s2, s3]))))))

/-- C8: from an idle queue over a store holding the three distinct
scenes, the cancel-all scenario leaves the pending list empty, no active
scene, both batch counters at zero, the first scene reverted to `defined`
(with `lastError` cleared by the abort unwind), and the two still-queued
scenes reverted to `defined`. -/
theorem c8_cancelAll_during_batch (s1 s2 s3 : String) (sc1 sc2 sc3 : Scene)
    (ab : Bool) (bt bd : Nat) (S : Store)
    (h12 : s1 ≠ s2) (h13 : s1 ≠ s3) (h23 : s2 ≠ s3)
    (h1 : storeGet S s1 = some sc1) (h2 : storeGet S s2 = some sc2)
    (h3 : storeGet S s3 = some sc3) :
    (c8Run ⟨[], none, ab, false, bt, bd, S⟩ s1 s2 s3).pending = [] ∧
    (c8Run ⟨[], none, ab, false, bt, bd, S⟩ s1 s2 s3).activeId = none ∧
    (c8Run ⟨[], none, ab, false, bt, bd, S⟩ s1 s2 s3).processing = false ∧
    (c8Run ⟨[], none, ab, false, bt, bd, S⟩ s1 s2 s3).batchTotal = 0 ∧
    (c8Run ⟨[], none, ab, false, bt, bd, S⟩ s1 s2 s3).batchDone = 0 ∧
    storeGet (c8Run ⟨[], none, ab, false, bt, bd, S⟩ s1 s2 s3).scenes s1
      = some { sc1 with status := .defined, lastError := none } ∧
    storeGet (c8Run ⟨[], none, ab, false, bt, bd, S⟩ s1 s2 s3).scenes s2
      = some { sc2 with status := .defined } ∧
    storeGet (c8Run ⟨[], none, ab, false, bt, bd, S⟩ s1 s2 s3).scenes s3
      = some { sc3 with status := .defined } := by
  simp [c8Run, qAddAll, qAdd, qStartNext, workerBegin, qCancelAll, revertIfQueued,
    workerAbortUnwind, qFinishActive, updateScene, storeGet_storeSet,
    h1, h2, h3, h12, h13, h23, Ne.symm h12, Ne.symm h13, Ne.symm h23]

/-- Scenes for the C8/C9 witnesses. -/
def dQ1 : Scene := { id := "S1" }

def dQ2 : Scene := { id := "S2" }

def dQ3 : Scene := { id := "S3" }

/-- C8 witness: the scenario on a concrete three-scene store. -/
theorem c8_witness :
    (c8Run ⟨[], none, false, false, 0, 0,
        [("S1", dQ1), ("S2", dQ2), ("S3", dQ3)]⟩ "S1" "S2" "S3").pending = [] ∧
    (c8Run ⟨[], none, false, false, 0, 0,
        [("S1", dQ1), ("S2", dQ2), ("S3", dQ3)]⟩ "S1" "S2" "S3").activeId = none ∧
    (c8Run ⟨[], none, false, false, 0, 0,
        [("S1", dQ1), ("S2", dQ2), ("S3", dQ3)]⟩ "S1" "S2" "S3").processing = false ∧
    (c8Run ⟨[], none, false, false, 0, 0,
        [("S1", dQ1), ("S2", dQ2), ("S3", dQ3)]⟩ "S1" "S2" "S3").batchTotal = 0 ∧
    (c8Run ⟨[], none, false, false, 0, 0,
        [("S1", dQ1), ("S2", dQ2), ("S3", dQ3)]⟩ "S1" "S2" "S3").batchDone = 0 ∧
    storeGet (c8Run ⟨[], none, false, false, 0, 0,
        [("S1", dQ1), ("S2", dQ2), ("S3", dQ3)]⟩ "S1" "S2" "S3").scenes "S1"
      = some { dQ1 with status := .defined, lastError := none } ∧
    storeGet (c8Run ⟨[], none, false, false, 0, 0,
        [("S1", dQ1), ("S2", dQ2), ("S3", dQ3)]⟩ "S1" "S2" "S3").scenes "S2"
      = some { dQ2 with status := .defined } ∧
    storeGet (c8Run ⟨[], none, false, false, 0, 0,
        [("S1", dQ1), ("S2", dQ2), ("S3", dQ3)]⟩ "S1" "S2" "S3").scenes "S3"
      = some { dQ3 with status := .defined } :=
  c8_cancelAll_during_batch "S1" "S2" "S3" dQ1 dQ2 dQ3 false 0 0
    [("S1", dQ1), ("S2", dQ2), ("S3", dQ3)]
    (by decide) (by decide) (by decide) (by decide) (by decide) (by decide)

theorem updateScene_keys_nodup (st : Store) (id : String) (f : Scene → Scene)
    (h : (st.map Prod.fst).Nodup) : ((updateScene st id f).map Prod.fst).Nodup := by
  rw [updateScene]
  split
  · exact h
  · exact storeSet_keys_nodup _ _ _ h

theorem updateScene_mem {st : Store} {id : String} {f : Scene → Scene}
    {e : String × Scene} (h : e ∈ updateScene st id f) :
    (∃ s, storeGet st id = some s ∧ e = (id, f s)) ∨ e ∈ st := by
  rw [updateScene] at h
  split at h
  · exact Or.inr h
  · next s hs =>
    rcases storeSet_mem h with rfl | h2
    · exact Or.inl ⟨s, hs, rfl⟩
    · exact Or.inr h2

/-- The single-concurrency invariant: scene ids are distinct and any
scene in `summarizing` is the queue's active one. -/
def QInv (q : QueueState) : Prop :=
  ((q.scenes.map Prod.fst).Nodup) ∧
  ∀ e ∈ q.scenes, e.2.status = .summarizing → q.activeId = some e.1

/-- One step of the queue/worker system.  `startNext` only runs when no
worker is active (`_processNext` is reached from `add` only when idle and
from its own tail only after the active slot is cleared); `finish` only
runs after the settled worker has left `summarizing` (it completed,
failed, or was unwound by the abort handler). -/
inductive QStep : QueueState → QueueState → Prop where
  | add (q : QueueState) (sceneId : String) : QStep q (qAdd q sceneId)
  | addAll (q : QueueState) (sceneIds : List String) : QStep q (qAddAll q sceneIds)
  | cancel (q : QueueState) (sceneId : String) : QStep q (qCancel q sceneId)
  | cancelAll (q : QueueState) : QStep q (qCancelAll q)
  | startNext (q : QueueState) : q.activeId = none → QStep q (qStartNext q)
  | workBegin (q : QueueState) : QStep q (workerBegin q)
  | workAbort (q : QueueState) : QStep q (workerAbortUnwind q)
  | workComplete (q : QueueState) (su : String) : QStep q (workerComplete q su)
  | workFail (q : QueueState) (msg : String) : QStep q (workerFail q msg)
  | finish (q : QueueState) :
      (∀ id s, q.activeId = some id → storeGet q.scenes id = some s →
        s.status ≠ .summarizing) →
      QStep q (qFinishActive q)

theorem revertIfQueued_inv {act : Option String} {st : Store} {id : String}
    (h1 : (st.map Prod.fst).Nodup)
    (h2 : ∀ e ∈ st, e.2.status = .summarizing → act = some e.1) :
    (((revertIfQueued st id).map Prod.fst).Nodup) ∧
    ∀ e ∈ revertIfQueued st id, e.2.status = .summarizing → act = some e.1 := by
  rw [revertIfQueued]
  split
  · next s hs =>
    split
    · refine ⟨storeSet_keys_nodup _ _ _ h1, ?_⟩
      intro e he hsum
      rcases storeSet_mem he with rfl | he2
      · simp at hsum
      · exact h2 e he2 hsum
    · exact ⟨h1, h2⟩
  · exact ⟨h1, h2⟩

theorem qAdd_inv {q : QueueState} {sceneId : String} (h : QInv q) :
    QInv (qAdd q sceneId) := by
  rw [qAdd]
  split
  · exact h
  · refine ⟨updateScene_keys_nodup _ _ _ h.1, ?_⟩
    intro e he hsum
    rcases updateScene_mem he with ⟨s, hs, rfl⟩ | he2
    · simp at hsum
    · exact h.2 e he2 hsum

theorem qAddAll_inv {q : QueueState} {ids : List String} (h : QInv q) :
    QInv (qAddAll q ids) := by
  rw [qAddAll]
  refine foldl_invariant QInv qAdd ids _ ?_ ?_
  · exact ⟨h.1, h.2⟩
  · intro a b _ ha
    exact qAdd_inv ha

theorem qCancel_inv {q : QueueState} {sceneId : String} (h : QInv q) :
    QInv (qCancel q sceneId) := by
  rw [qCancel]
  split
  · exact ⟨(revertIfQueued_inv h.1 h.2).1, (revertIfQueued_inv h.1 h.2).2⟩
  · split
    · exact ⟨h.1, h.2⟩
    · exact h

theorem qCancelAll_inv {q : QueueState} (h : QInv q) : QInv (qCancelAll q) := by
  have hfold : ∀ (l : List String) (st : Store),
      ((st.map Prod.fst).Nodup ∧
        ∀ e ∈ st, e.2.status = .summarizing → q.activeId = some e.1) →
      (((l.foldl revertIfQueued st).map Prod.fst).Nodup ∧
        ∀ e ∈ l.foldl revertIfQueued st, e.2.status = .summarizing →
          q.activeId = some e.1) := by
    intro l
    induction l with
    | nil =>
      intro st hst
      exact hst
    | cons x xs ih =>
      intro st hst
      rw [List.foldl_cons]
      exact ih _ (revertIfQueued_inv hst.1 hst.2)
  rw [qCancelAll]
  by_cases hA : q.activeId.isSome = true
  · rw [if_pos hA]
    exact ⟨(hfold q.pending q.scenes ⟨h.1, h.2⟩).1, (hfold q.pending q.scenes ⟨h.1, h.2⟩).2⟩
  · rw [if_neg hA]
    exact ⟨(hfold q.pending q.scenes ⟨h.1, h.2⟩).1, (hfold q.pending q.scenes ⟨h.1, h.2⟩).2⟩

theorem qStartNext_inv {q : QueueState} (h : QInv q) (hact : q.activeId = none) :
    QInv (qStartNext q) := by
  rw [qStartNext]
  split
  · refine ⟨h.1, ?_⟩
    intro e he hsum
    exfalso
    have := h.2 e he hsum
    rw [hact] at this
    cases this
  · refine ⟨h.1, ?_⟩
    intro e he hsum
    exfalso
    have := h.2 e he hsum
    rw [hact] at this
    cases this

theorem workerBegin_inv {q : QueueState} (h : QInv q) : QInv (workerBegin q) := by
  rw [workerBegin]
  split
  · exact h
  · next id hid =>
    split
    · exact h
    · next s hs =>
      split
      · refine ⟨storeSet_keys_nodup _ _ _ h.1, ?_⟩
        intro e he hsum
        rcases storeSet_mem he with rfl | he2
        · exact hid
        · exact h.2 e he2 hsum
      · exact h

theorem workerAbortUnwind_inv {q : QueueState} (h : QInv q) :
    QInv (workerAbortUnwind q) := by
  rw [workerAbortUnwind]
  split
  · exact h
  · refine ⟨updateScene_keys_nodup _ _ _ h.1, ?_⟩
    intro e he hsum
    rcases updateScene_mem he with ⟨s, hs, rfl⟩ | he2
    · simp at hsum
    · exact h.2 e he2 hsum

theorem workerComplete_inv {q : QueueState} {su : String} (h : QInv q) :
    QInv (workerComplete q su) := by
  rw [workerComplete]
  split
  · exact h
  · refine ⟨updateScene_keys_nodup _ _ _ h.1, ?_⟩
    intro e he hsum
    rcases updateScene_mem he with ⟨s, hs, rfl⟩ | he2
    · simp at hsum
    · exact h.2 e he2 hsum

theorem workerFail_inv {q : QueueState} {msg : String} (h : QInv q) :
    QInv (workerFail q msg) := by
  rw [workerFail]
  split
  · exact h
  · refine ⟨updateScene_keys_nodup _ _ _ h.1, ?_⟩
    intro e he hsum
    rcases updateScene_mem he with ⟨s, hs, rfl⟩ | he2
    · simp at hsum
    · exact h.2 e he2 hsum

theorem qFinishActive_inv {q : QueueState} (h : QInv q)
    (hpre : ∀ id s, q.activeId = some id → storeGet q.scenes id = some s →
      s.status ≠ .summarizing) : QInv (qFinishActive q) := by
  refine ⟨h.1, ?_⟩
  intro e he hsum
  exfalso
  exact hpre e.1 e.2 (h.2 e he hsum) (storeGet_of_mem_nodup h.1 he) hsum

/-- C9: the single-concurrency invariant is preserved by every step of
the queue/worker system, and under it at most one stored scene is in
`summarizing` at any instant. -/
theorem c9_single_concurrency (q q1 : QueueState) (hq : QInv q)
    (hstep : QStep q q1) :
    QInv q1 ∧
    ∀ e1 ∈ q1.scenes, ∀ e2 ∈ q1.scenes,
      e1.2.status = .summarizing → e2.2.status = .summarizing → e1 = e2 := by
  have hinv : QInv q1 := by
    cases hstep with
    | add sceneId => exact qAdd_inv hq
    | addAll ids => exact qAddAll_inv hq
    | cancel sceneId => exact qCancel_inv hq
    | cancelAll => exact qCancelAll_inv hq
    | startNext hact => exact qStartNext_inv hq hact
    | workBegin => exact workerBegin_inv hq
    | workAbort => exact workerAbortUnwind_inv hq
    | workComplete su => exact workerComplete_inv hq
    | workFail msg => exact workerFail_inv hq
    | finish hpre => exact qFinishActive_inv hq hpre
  refine ⟨hinv, ?_⟩
  intro e1 he1 e2 he2 h1 h2
  have hk : e1.1 = e2.1 :=
    Option.some.inj ((hinv.2 e1 he1 h1).symm.trans (hinv.2 e2 he2 h2))
  have g1 : storeGet q1.scenes e1.1 = some e1.2 := storeGet_of_mem_nodup hinv.1 he1
  have g2 : storeGet q1.scenes e2.1 = some e2.2 := storeGet_of_mem_nodup hinv.1 he2
  rw [hk] at g1
  exact Prod.ext hk (Option.some.inj (g1.symm.trans g2))

/-- C9 witness: a worker-completion step on a queue whose active scene is
the unique one in `summarizing`. -/
theorem c9_witness :
    QInv (workerComplete ⟨[], some "S1", false, true, 1, 0,
        [("S1", { dQ1 with status := .summarizing })]⟩ "su") ∧
    ∀ e1 ∈ (workerComplete ⟨[], some "S1", false, true, 1, 0,
        [("S1", { dQ1 with status := .summarizing })]⟩ "su").scenes,
    ∀ e2 ∈ (workerComplete ⟨[], some "S1", false, true, 1, 0,
        [("S1", { dQ1 with status := .summarizing })]⟩ "su").scenes,
      e1.2.status = .summarizing → e2.2.status = .summarizing → e1 = e2 :=
  c9_single_concurrency
    ⟨[], some "S1", false, true, 1, 0, [("S1", { dQ1 with status := .summarizing })]⟩
    _ ⟨by decide, by decide⟩
    (QStep.workComplete
      ⟨[], some "S1", false, true, 1, 0, [("S1", { dQ1 with status := .summarizing })]⟩
      "su")

end SceneFold
